import Mathlib

/-!
# mackerel-plugin-aws-alb : metric resolution and collection engine

A shallow embedding of `lib/aws-alb.go` (package `mpawsalb`) and the
properties of its resource resolver (`prepare`), point selector
(`getLastPoint`) and snapshot assembler (`FetchMetrics`).

Conventions of the embedding

* Go `string` is Lean `String`; the library routines that the program calls
  (`regexp`, `strings.Split`, `strings.Replace`) are written over the
  character list of the string.
* `time.Time` is an integer number of nanoseconds counted from the zero
  value `time.Time{}` (0001-01-01T00:00:00Z); `Before` is `<`.
* `float64` statistics are only ever copied by the program, never computed
  with; they are carried as integers, `0` being the zero value of an
  uninitialised `float64` variable.
* A pointer field of an SDK record that the program dereferences is an
  `Option`; dereferencing `none` is a run-time panic, the outcome `Run.panic`.
* The AWS services are arbitrary functions.  The telemetry service is
  stateful: every request that is sent receives the current state of the
  outside world and returns the next one, so that the answers may change from
  call to call.  The client in front of it validates the request first, as
  the client built by `cloudwatch.New` does.
-/

namespace mpawsalb

/-! ## Library routines used by the program -/

/-- One element of a compiled pattern.  The three patterns of the program are
sequences of literal characters and of `.+` / `.+?` repetitions, the latter
possibly wrapped in a capture group. -/
inductive RegexItem where
  | lit (c : Char)
  | anyPlus (greedy : Bool) (capture : Bool)
  deriving DecidableEq, Repr

/-- A compiled pattern, the result of `regexp.MustCompile`. -/
abbrev Regexp := List RegexItem

/-- The literal prefix of a pattern. -/
def lits (s : String) : Regexp := s.data.map RegexItem.lit

/-- The result of matching from a fixed position: the text matched and the
texts of the capture groups, in order. -/
abbrev MatchResult := List Char × List (List Char)

/-- The repetition `.+?` followed by the continuation `k`: one character that
is not a newline, then the shortest extension for which `k` succeeds. -/
def lazyPlus (k : List Char → Option MatchResult) :
    List Char → Option (List Char × MatchResult)
  | [] => none
  | c :: cs =>
    if c = '\n' then none
    else
      match k cs with
      | some r => some ([c], r)
      | none =>
        match lazyPlus k cs with
        | some (w, r) => some (c :: w, r)
        | none => none

/-- The repetition `.+` followed by the continuation `k`: one character that
is not a newline, then the longest extension for which `k` succeeds. -/
def greedyPlus (k : List Char → Option MatchResult) :
    List Char → Option (List Char × MatchResult)
  | [] => none
  | c :: cs =>
    if c = '\n' then none
    else
      match greedyPlus k cs with
      | some (w, r) => some (c :: w, r)
      | none =>
        match k cs with
        | some r => some ([c], r)
        | none => none

/-- Match the items of a pattern at the start of the text, preferring what a
backtracking search finds first (the leftmost-first rule of Go's `regexp`). -/
def matchHere : Regexp → List Char → Option MatchResult
  | [], _ => some ([], [])
  | RegexItem.lit c :: rest, s =>
    match s with
    | [] => none
    | d :: ds =>
      if d = c then
        match matchHere rest ds with
        | some (m, g) => some (d :: m, g)
        | none => none
      else none
  | RegexItem.anyPlus greedy capture :: rest, s =>
    match (if greedy then greedyPlus (matchHere rest) s else lazyPlus (matchHere rest) s) with
    | some (w, (m, g)) => some (w ++ m, if capture then w :: g else g)
    | none => none

/-- The leftmost match of the pattern in the text: the whole match followed by
the capture groups, or the empty list (Go's `nil`) when there is none. -/
def findSubmatch (re : Regexp) : List Char → List (List Char)
  | [] =>
    match matchHere re [] with
    | some (m, g) => m :: g
    | none => []
  | c :: cs =>
    match matchHere re (c :: cs) with
    | some (m, g) => m :: g
    | none => findSubmatch re cs

/-- The method `(*Regexp).FindStringSubmatch`. -/
def FindStringSubmatch (re : Regexp) (s : String) : List String :=
  (findSubmatch re s.data).map String.mk

/-- Splitting at a separator character. -/
def splitChars (sep : Char) : List Char → List (List Char)
  | [] => [[]]
  | c :: cs =>
    if c = sep then [] :: splitChars sep cs
    else
      match splitChars sep cs with
      | [] => [[c]]
      | w :: ws => (c :: w) :: ws

/-- The call `strings.Split(s, sep)` for a separator of one character. -/
def stringsSplit (s : String) (sep : Char) : List String :=
  (splitChars sep s.data).map String.mk

/-- Replacement of the empty string: `new` is inserted at the beginning and
after each character, at most `n` times. -/
def replaceEmpty (new : List Char) : Nat → List Char → List Char
  | 0, s => s
  | _ + 1, [] => new
  | n + 1, c :: cs => new ++ c :: replaceEmpty new n cs

/-- Replacement of the first `n` non-overlapping occurrences of a non-empty
`old`; `skip` counts the characters of an occurrence still to be dropped. -/
def replaceChars (old new : List Char) : Nat → Nat → List Char → List Char
  | _, _, [] => []
  | n, skip + 1, _ :: cs => replaceChars old new n skip cs
  | 0, 0, c :: cs => c :: cs
  | n + 1, 0, c :: cs =>
    if old.isPrefixOf (c :: cs) then new ++ replaceChars old new n (old.length - 1) cs
    else c :: replaceChars old new (n + 1) 0 cs

/-- The function `strings.Replace(s, old, new, n)`: the first `n` occurrences
of `old` are replaced, all of them when `n < 0`, none when `n = 0`. -/
def stringsReplace (s old new : String) (n : Int) : String :=
  if old = new ∨ n = 0 then s
  else
    let limit : Nat := if n < 0 then s.length + 1 else n.toNat
    if old.data = [] then String.mk (replaceEmpty new.data limit s.data)
    else String.mk (replaceChars old.data new.data limit 0 s.data)

/-- The function `regexp.MustCompile` on the pattern syntax that the program
uses: literal characters, `.+` and `.+?`, bare or inside a capture group. -/
def compile : List Char → Regexp
  | '(' :: '.' :: '+' :: '?' :: ')' :: rest => RegexItem.anyPlus false true :: compile rest
  | '(' :: '.' :: '+' :: ')' :: rest => RegexItem.anyPlus true true :: compile rest
  | '.' :: '+' :: '?' :: rest => RegexItem.anyPlus false false :: compile rest
  | '.' :: '+' :: rest => RegexItem.anyPlus true false :: compile rest
  | c :: rest => RegexItem.lit c :: compile rest
  | [] => []

/-- The function `regexp.MustCompile`. -/
def MustCompile (pattern : String) : Regexp := compile pattern.data

/-! ## Data model -/

/-- Go's `error`; `nil` is `none` where an optional error is returned. -/
abbrev Error := String

deriving instance DecidableEq for Except

/-- A `float64` statistic. -/
abbrev Float64 := Int

/-- A `time.Time`, in nanoseconds from the zero value `time.Time{}`. -/
abbrev Time := Int

/-- A computation that either returns or aborts the process with a run-time
panic. -/
inductive Run (α : Type) where
  | done (a : α)
  | panic (msg : String)
  deriving DecidableEq, Repr

/-- The record `mp.Metrics` of the plugin helper. -/
structure Metrics where
  Name : String
  Label : String
  Stacked : Bool
  deriving DecidableEq, Repr

/-- The record `mp.Graphs` of the plugin helper. -/
structure Graphs where
  Label : String
  Unit : String
  Metrics : List Metrics
  deriving DecidableEq, Repr

/-- The metric catalogue `graphdef`, a map from group key to graph. -/
def graphdef : List (String × Graphs) := [
  ("alb.bytes.processed", {
    Label := "Processed Bytes", Unit := "bytes",
    Metrics := [⟨"ProcessedBytes", "Processed", false⟩] }),
  ("alb.connection_count", {
    Label := "Connection Count", Unit := "integer",
    Metrics := [⟨"NewConnectionCount", "New", false⟩,
                ⟨"RejectedConnectionCount", "Rejected", false⟩] }),
  ("alb.concurrent_connection_count", {
    Label := "Concurrent Connection Count", Unit := "integer",
    Metrics := [⟨"ActiveConnectionCount", "Active", false⟩] }),
  ("alb.connection_error_count", {
    Label := "Target Connection Error Count", Unit := "integer",
    Metrics := [⟨"TargetConnectionErrorCount", "Count", false⟩] }),
  ("alb.request", {
    Label := "Concurrent Connection Count", Unit := "integer",
    Metrics := [⟨"RequestCount", "Request Count", false⟩] }),
  ("alb.response", {
    Label := "Target Connection Error Count", Unit := "float",
    Metrics := [⟨"TargetResponseTime", "Time", false⟩] }),
  ("alb.httpcode_count", {
    Label := "HTTP Code Count", Unit := "integer",
    Metrics := [⟨"HTTPCode_ELB_4XX_Count", "ALB 4XX", false⟩,
                ⟨"HTTPCode_ELB_5XX_Count", "ALB 5XX", false⟩,
                ⟨"HTTPCode_Target_2XX_Count", "Target 2XX", false⟩,
                ⟨"HTTPCode_Target_3XX_Count", "Target 3XX", false⟩,
                ⟨"HTTPCode_Target_4XX_Count", "Target 4XX", false⟩,
                ⟨"HTTPCode_Target_5XX_Count", "Target 5XX", false⟩] }),
  ("alb.host_count.#", {
    Label := "Host Count", Unit := "float",
    Metrics := [⟨"HealthyHostCount", "Healthy", false⟩,
                ⟨"UnHealthyHostCount", "UnHealthy", false⟩] }),
  ("alb.httpcode_count_per_group.#", {
    Label := "HTTP Code Count", Unit := "integer",
    Metrics := [⟨"HTTPCode_Target_2XX_Count", "Target 2XX", false⟩,
                ⟨"HTTPCode_Target_3XX_Count", "Target 3XX", false⟩,
                ⟨"HTTPCode_Target_4XX_Count", "Target 4XX", false⟩,
                ⟨"HTTPCode_Target_5XX_Count", "Target 5XX", false⟩] }),
  ("alb.request_per_group.#", {
    Label := "Concurrent Connection Count", Unit := "integer",
    Metrics := [⟨"RequestCountPerTarget", "Request Count", false⟩] }),
  ("alb.response_per_group.#", {
    Label := "Target Connection Error Count", Unit := "float",
    Metrics := [⟨"TargetResponseTime", "Time", false⟩] })]

/-- The aggregation policy `statType`. -/
inductive statType where
  | stAve
  | stSum
  deriving DecidableEq, Repr

/-- The method `statType.String`. -/
def statType.String : statType → String
  | statType.stAve => "Average"
  | statType.stSum => "Sum"

/-- The record `cloudwatch.Dimension`. -/
structure Dimension where
  Name : String
  Value : String
  deriving DecidableEq, Repr

/-- The method `(*Dimension).Validate` of the SDK: name and value are at least
one character long. -/
def Dimension.Validate (d : Dimension) : Bool :=
  decide (d.Name ≠ "") && decide (d.Value ≠ "")

/-- The record `cloudwatch.Datapoint`, with the fields the program reads.  Each
is a pointer, left `nil` by the SDK when the response does not carry it. -/
structure Datapoint where
  Timestamp : Option Time
  Sum : Option Float64
  Average : Option Float64
  deriving DecidableEq, Repr

/-- The record `cloudwatch.GetMetricStatisticsInput`. -/
structure GetMetricStatisticsInput where
  Dimensions : List Dimension
  StartTime : Time
  EndTime : Time
  MetricName : String
  Period : Int
  Statistics : List String
  Namespace : String
  deriving DecidableEq, Repr

/-- The method `(*GetMetricStatisticsInput).Validate` of the SDK, on the fields
that the program fills in (the time window and the statistic are always set):
metric name and namespace are at least one character long, the period is at
least 1, and every dimension is valid. -/
def GetMetricStatisticsInput.Validate (input : GetMetricStatisticsInput) : Bool :=
  decide (input.MetricName ≠ "") && decide (input.Namespace ≠ "") && decide (1 ≤ input.Period)
    && input.Dimensions.all Dimension.Validate

/-- The record `cloudwatch.GetMetricStatisticsOutput`.  The members of the
list are allocated by the SDK, only their fields may be missing. -/
structure GetMetricStatisticsOutput where
  Datapoints : List Datapoint
  deriving DecidableEq, Repr

/-- The telemetry collaborator behind `*cloudwatch.CloudWatch` together with
the clock, over a state `σ` of the outside world.  A request that is sent is
answered from the current state, which moves to the next one. -/
structure CloudWatch (σ : Type) where
  Now : σ → Time
  Send : σ → GetMetricStatisticsInput → Except Error GetMetricStatisticsOutput × σ

/-- The method `(*CloudWatch).GetMetricStatistics` of the client that `prepare`
builds with `cloudwatch.New`: a request that fails validation is answered with
an error without being sent. -/
def CloudWatch.GetMetricStatistics {σ : Type} (cw : CloudWatch σ) (w : σ)
    (input : GetMetricStatisticsInput) : Except Error GetMetricStatisticsOutput × σ :=
  if input.Validate then cw.Send w input
  else (Except.error "InvalidParameter: 1 validation error(s) found.", w)

/-- The record `elbv2.LoadBalancer`, with the field the program reads. -/
structure LoadBalancer where
  LoadBalancerArn : String
  deriving DecidableEq, Repr

/-- The record `elbv2.TargetGroup`, with the field the program reads. -/
structure TargetGroup where
  TargetGroupArn : String
  deriving DecidableEq, Repr

/-- The resource directory collaborator: session creation and the two
describe calls of the `elbv2` client.  `DescribeLoadBalancers` receives the
list `Names` and `DescribeTargetGroups` the `LoadBalancerArn` of its input. -/
structure ELBv2 where
  NewSession : Except Error Unit
  DescribeLoadBalancers : List String → Except Error (List LoadBalancer)
  DescribeTargetGroups : String → Except Error (List TargetGroup)

/-- The record `ALBPlugin`.  The field `CloudWatch` is the collaborator passed
to the operations, and `AZs` is never read. -/
structure ALBPlugin where
  Region : String
  AccessKeyID : String
  SecretAccessKey : String
  Lbname : String
  Tgnames : List String
  FetchDuration : Int
  deriving DecidableEq, Repr

/-- The map `stat` of `FetchMetrics`, from key to value. -/
abbrev Stat := String → Option Float64

/-- The statement `stat[key] = v`. -/
def Stat.set (stat : Stat) (key : String) (v : Float64) : Stat :=
  fun k => if k = key then some v else stat k

/-- The empty map `make(map[string]interface{})`. -/
def Stat.empty : Stat := fun _ => none

/-! ## Resource resolver -/

/-- The value `session.Must(session.NewSession())`. -/
def sessionMust (r : Except Error Unit) : Run Unit :=
  match r with
  | Except.ok u => Run.done u
  | Except.error e => Run.panic e

/-- The short name that `prepare` passes to `DescribeLoadBalancers`. -/
def elbSimpleName (Lbname : String) : String :=
  let r := MustCompile "app/(.+?)/.+"
  let groups := FindStringSubmatch r Lbname
  if groups.length > 1 then groups.getD 1 "" else Lbname

/-- The loop of `prepare` over the discovered target groups: the first capture
group of each identifier is appended; indexing it when the pattern did not
match is an index out of range. -/
def appendTgnames (tr : Regexp) : List String → List TargetGroup → Run (List String)
  | tgnames, [] => Run.done tgnames
  | tgnames, tg :: rest =>
    let tgroups := FindStringSubmatch tr tg.TargetGroupArn
    match tgroups.get? 1 with
    | some name => appendTgnames tr (tgnames ++ [name]) rest
    | none => Run.panic "runtime error: index out of range"

/-- The method `(*ALBPlugin).prepare`: the plugin after resolution and the
returned error. -/
def prepare (aws : ELBv2) (p : ALBPlugin) : Run (ALBPlugin × Option Error) :=
  match sessionMust aws.NewSession with
  | Run.panic msg => Run.panic msg
  | Run.done _ =>
    match aws.DescribeLoadBalancers [elbSimpleName p.Lbname] with
    | Except.ok [lb] =>
      let tr := MustCompile "arn:aws:elasticloadbalancing:.+:(.+)"
      match aws.DescribeTargetGroups lb.LoadBalancerArn with
      | Except.ok (tg :: tgs) =>
        match appendTgnames tr [""] (tg :: tgs) with
        | Run.done tgnames => Run.done ({ p with Tgnames := tgnames }, none)
        | Run.panic msg => Run.panic msg
      | _ => Run.done (p, none)
    | _ => Run.done (p, none)

/-! ## Point selector -/

/-- Wrap-around of 64-bit signed arithmetic. -/
def wrapInt64 (x : Int) : Int := (x + 2 ^ 63) % 2 ^ 64 - 2 ^ 63

/-- One minute, as a `time.Duration` in nanoseconds. -/
def minute : Int := 60 * 1000000000

/-- The method `Time.Truncate` for a positive duration. -/
def truncate (t : Time) (d : Int) : Time := if d ≤ 0 then t else t - t % d

/-- The message of the panic raised by dereferencing a nil pointer. -/
def nilDereference : String :=
  "runtime error: invalid memory address or nil pointer dereference"

/-- The field of a data point read under an aggregation policy, a pointer. -/
def statField (sTyp : statType) (dp : Datapoint) : Option Float64 :=
  match sTyp with
  | statType.stAve => dp.Average
  | statType.stSum => dp.Sum

/-- The body of the selection loop of `getLastPoint`, on the pair
`(latest, latestVal)`: the timestamp is dereferenced, a point before `latest`
is skipped, and otherwise the requested statistic is dereferenced. -/
def selectStep (sTyp : statType) (acc : Time × Float64) (dp : Datapoint) :
    Run (Time × Float64) :=
  match dp.Timestamp with
  | none => Run.panic nilDereference
  | some t =>
    if t < acc.1 then Run.done acc
    else
      match statField sTyp dp with
      | none => Run.panic nilDereference
      | some v => Run.done (t, v)

/-- The selection loop of `getLastPoint`. -/
def selectLoop (sTyp : statType) : Time × Float64 → List Datapoint → Run (Time × Float64)
  | acc, [] => Run.done acc
  | acc, dp :: dps =>
    match selectStep sTyp acc dp with
    | Run.done acc2 => selectLoop sTyp acc2 dps
    | Run.panic msg => Run.panic msg

/-- The request that `getLastPoint` sends. -/
def getLastPointInput (p : ALBPlugin) (now : Time) (dimensions : List Dimension)
    (metricName : String) (sTyp : statType) : GetMetricStatisticsInput :=
  { Dimensions := dimensions
    StartTime := now + wrapInt64 (wrapInt64 (wrapInt64 p.FetchDuration * 1000000000) * -1)
    EndTime := now
    MetricName := metricName
    Period := 60
    Statistics := [sTyp.String]
    Namespace := "AWS/ApplicationELB" }

/-- The part of `getLastPoint` after the call of the client: what is returned
for a response. -/
def selectResponse (sTyp : statType) (response : Except Error GetMetricStatisticsOutput) :
    Run (Except Error Float64) :=
  match response with
  | Except.error err => Run.done (Except.error err)
  | Except.ok response =>
    let datapoints := response.Datapoints
    if datapoints.length = 0 then Run.done (Except.error "fetched no datapoints")
    else
      match selectLoop sTyp (0, 0) datapoints with
      | Run.done acc => Run.done (Except.ok acc.2)
      | Run.panic msg => Run.panic msg

/-- The method `ALBPlugin.getLastPoint`. -/
def getLastPoint {σ : Type} (cw : CloudWatch σ) (p : ALBPlugin) (dimensions : List Dimension)
    (metricName : String) (sTyp : statType) (w : σ) : Run (Except Error Float64 × σ) :=
  let now := truncate (cw.Now w) minute
  match cw.GetMetricStatistics w (getLastPointInput p now dimensions metricName sTyp) with
  | (response, w1) =>
    match selectResponse sTyp response with
    | Run.done r => Run.done (r, w1)
    | Run.panic msg => Run.panic msg

/-! ## Snapshot assembler -/

/-- One metric loop of `FetchMetrics`: for each name the last point is fetched
and, when there is no error, stored under the key made from the name. -/
def rangeMetrics {σ : Type} (cw : CloudWatch σ) (p : ALBPlugin) (dimensions : List Dimension)
    (sTyp : statType) (key : String → String) :
    List String → Stat × σ → Run (Stat × σ)
  | [], acc => Run.done acc
  | met :: mets, (stat, w) =>
    match getLastPoint cw p dimensions met sTyp w with
    | Run.done (Except.ok v, w1) =>
      rangeMetrics cw p dimensions sTyp key mets (stat.set (key met) v, w1)
    | Run.done (Except.error _, w1) => rangeMetrics cw p dimensions sTyp key mets (stat, w1)
    | Run.panic msg => Run.panic msg

/-- Sequencing of two steps of a run. -/
def Run.andThen {α β : Type} (r : Run α) (f : α → Run β) : Run β :=
  match r with
  | Run.done a => f a
  | Run.panic msg => Run.panic msg

/-- The dimension set of a load-balancer-level query. -/
def ld (p : ALBPlugin) : List Dimension := [⟨"LoadBalancer", p.Lbname⟩]

/-- The dimension set of a query scoped to one target group. -/
def td (p : ALBPlugin) (tgname : String) : List Dimension :=
  [⟨"LoadBalancer", p.Lbname⟩, ⟨"TargetGroup", tgname⟩]

/-- The name under which a target group appears in the keys. -/
def tgMetricName (tgname : String) : String :=
  let tgr := MustCompile "targetgroup/(.+?)/.+"
  let group := FindStringSubmatch tgr tgname
  if group.length ≥ 2 then group.getD 1 "" else stringsReplace tgname "/" "_" 0

/-- The body of the loop of `FetchMetrics` over `p.Tgnames`. -/
def rangeTgname {σ : Type} (cw : CloudWatch σ) (p : ALBPlugin) (acc : Stat × σ)
    (tgname : String) : Run (Stat × σ) :=
  let tgMetricName := tgMetricName tgname
  let td := td p tgname
  (rangeMetrics cw p td statType.stSum
    (fun met => "alb.httpcode_count_per_group." ++ tgMetricName ++ "." ++ met)
    ["HTTPCode_Target_2XX_Count", "HTTPCode_Target_3XX_Count", "HTTPCode_Target_4XX_Count",
      "HTTPCode_Target_5XX_Count"] acc).andThen fun acc =>
  (rangeMetrics cw p td statType.stSum
    (fun met => "alb.request_per_group." ++ tgMetricName ++ "." ++ met)
    ["RequestCountPerTarget"] acc).andThen fun acc =>
  (rangeMetrics cw p td statType.stAve
    (fun met => "alb.host_count." ++ tgMetricName ++ "." ++ met)
    ["HealthyHostCount", "UnHealthyHostCount"] acc).andThen fun acc =>
  rangeMetrics cw p td statType.stAve
    (fun met => "alb.response_per_group." ++ tgMetricName ++ "." ++ met)
    ["TargetResponseTime"] acc

/-- The loop of `FetchMetrics` over `p.Tgnames`. -/
def rangeTgnames {σ : Type} (cw : CloudWatch σ) (p : ALBPlugin) :
    List String → Stat × σ → Run (Stat × σ)
  | [], acc => Run.done acc
  | tgname :: tgnames, acc =>
    (rangeTgname cw p acc tgname).andThen fun acc => rangeTgnames cw p tgnames acc

/-- The method `ALBPlugin.FetchMetrics`: the map, the returned error and the
state of the outside world afterwards. -/
def FetchMetrics {σ : Type} (cw : CloudWatch σ) (p : ALBPlugin) (w : σ) :
    Run ((Stat × Option Error) × σ) :=
  if p.Lbname ≠ "" then
    (rangeMetrics cw p (ld p) statType.stSum (fun met => met)
      ["ProcessedBytes",
        "NewConnectionCount", "RejectedConnectionCount", "ActiveConnectionCount",
        "TargetConnectionErrorCount",
        "RequestCount",
        "HTTPCode_ELB_5XX_Count", "HTTPCode_ELB_4XX_Count",
        "HTTPCode_Target_2XX_Count", "HTTPCode_Target_3XX_Count", "HTTPCode_Target_4XX_Count",
        "HTTPCode_Target_5XX_Count"] (Stat.empty, w)).andThen fun acc =>
    (rangeMetrics cw p (ld p) statType.stAve (fun met => met)
      ["TargetResponseTime"] acc).andThen fun acc =>
    (rangeTgnames cw p p.Tgnames acc).andThen fun acc =>
    Run.done ((acc.1, none), acc.2)
  else Run.done ((Stat.empty, none), w)

/-! ## Bootstrap -/

/-- The command-line options read by `Do`. -/
structure Flags where
  region : String := ""
  lbname : String := ""
  tgname : String := ""
  fetch : Int := 300
  accessKeyID : String := ""
  secretAccessKey : String := ""
  tempfile : String := ""
  deriving DecidableEq, Repr

/-- The plugin record that `Do` fills in from the options; `metaRegion` is the
region reported by the instance metadata service when it is available. -/
def DoPlugin (opt : Flags) (metaRegion : Option String) : ALBPlugin :=
  { Region := if opt.region = "" then metaRegion.getD "" else opt.region
    AccessKeyID := opt.accessKeyID
    SecretAccessKey := opt.secretAccessKey
    Lbname := opt.lbname
    Tgnames := stringsSplit opt.tgname ','
    FetchDuration := opt.fetch }

/-- The function `Do` up to one collection cycle of the helper: the plugin is
built from the options, prepared, and `FetchMetrics` is called on it. -/
def Do {σ : Type} (aws : ELBv2) (cw : CloudWatch σ) (opt : Flags) (metaRegion : Option String)
    (w : σ) : Run ((Stat × Option Error) × σ) :=
  match sessionMust aws.NewSession with
  | Run.panic msg => Run.panic msg
  | Run.done _ =>
    match prepare aws (DoPlugin opt metaRegion) with
    | Run.panic msg => Run.panic msg
    | Run.done (_, some err) => Run.panic err
    | Run.done (alb, none) => FetchMetrics cw alb w

/-! ## The queries of one collection cycle -/

/-- One query of `FetchMetrics`: the dimension set, the metric name and the
aggregation policy handed to `getLastPoint`, and the key under which the
result is stored. -/
structure Query where
  dimensions : List Dimension
  metricName : String
  sTyp : statType
  key : String
  deriving DecidableEq, Repr

/-- The queries of one metric loop of `FetchMetrics`, in order. -/
def loopQueries (dimensions : List Dimension) (sTyp : statType) (key : String → String)
    (mets : List String) : List Query :=
  mets.map fun met => ⟨dimensions, met, sTyp, key met⟩

/-- The load-balancer-level queries of `FetchMetrics`, in order. -/
def lbQueries (p : ALBPlugin) : List Query :=
  loopQueries (ld p) statType.stSum (fun met => met)
      ["ProcessedBytes",
        "NewConnectionCount", "RejectedConnectionCount", "ActiveConnectionCount",
        "TargetConnectionErrorCount",
        "RequestCount",
        "HTTPCode_ELB_5XX_Count", "HTTPCode_ELB_4XX_Count",
        "HTTPCode_Target_2XX_Count", "HTTPCode_Target_3XX_Count", "HTTPCode_Target_4XX_Count",
        "HTTPCode_Target_5XX_Count"]
    ++ loopQueries (ld p) statType.stAve (fun met => met) ["TargetResponseTime"]

/-- The queries of `FetchMetrics` for one entry of `p.Tgnames`, in order. -/
def tgQueries (p : ALBPlugin) (tgname : String) : List Query :=
  loopQueries (td p tgname) statType.stSum
      (fun met => "alb.httpcode_count_per_group." ++ tgMetricName tgname ++ "." ++ met)
      ["HTTPCode_Target_2XX_Count", "HTTPCode_Target_3XX_Count", "HTTPCode_Target_4XX_Count",
        "HTTPCode_Target_5XX_Count"]
    ++ loopQueries (td p tgname) statType.stSum
      (fun met => "alb.request_per_group." ++ tgMetricName tgname ++ "." ++ met)
      ["RequestCountPerTarget"]
    ++ loopQueries (td p tgname) statType.stAve
      (fun met => "alb.host_count." ++ tgMetricName tgname ++ "." ++ met)
      ["HealthyHostCount", "UnHealthyHostCount"]
    ++ loopQueries (td p tgname) statType.stAve
      (fun met => "alb.response_per_group." ++ tgMetricName tgname ++ "." ++ met)
      ["TargetResponseTime"]

/-- All queries of `FetchMetrics` for a plugin with a load-balancer name, in
the order in which they are issued. -/
def fetchQueries (p : ALBPlugin) : List Query :=
  lbQueries p ++ (p.Tgnames.map (tgQueries p)).flatten


/-- Issue the queries in order, storing each success under its key. -/
def runQueries {σ : Type} (cw : CloudWatch σ) (p : ALBPlugin) :
    List Query → Stat × σ → Run (Stat × σ)
  | [], acc => Run.done acc
  | q :: qs, (stat, w) =>
    match getLastPoint cw p q.dimensions q.metricName q.sTyp w with
    | Run.done (Except.ok v, w1) => runQueries cw p qs (stat.set q.key v, w1)
    | Run.done (Except.error _, w1) => runQueries cw p qs (stat, w1)
    | Run.panic msg => Run.panic msg

/-- One call of the telemetry client during a collection cycle: the query and
the response that the client gave to it. -/
structure Call where
  query : Query
  response : Except Error GetMetricStatisticsOutput
  deriving DecidableEq, Repr

/-- The calls of the telemetry client that issuing the queries in order from
the state `w` makes, each with its response; a call on whose response the
selection panics is the last one. -/
def callsFrom {σ : Type} (cw : CloudWatch σ) (p : ALBPlugin) : List Query → σ → List Call
  | [], _ => []
  | q :: qs, w =>
    match cw.GetMetricStatistics w
      (getLastPointInput p (truncate (cw.Now w) minute) q.dimensions q.metricName q.sTyp) with
    | (response, w1) =>
      match selectResponse q.sTyp response with
      | Run.done _ => ⟨q, response⟩ :: callsFrom cw p qs w1
      | Run.panic _ => [⟨q, response⟩]

/-- The calls of the telemetry client that `FetchMetrics` makes from the state
`w`, in order, each with its response. -/
def fetchCalls {σ : Type} (cw : CloudWatch σ) (p : ALBPlugin) (w : σ) : List Call :=
  if p.Lbname ≠ "" then callsFrom cw p (fetchQueries p) w else []

/-- The call returned an error or zero data points. -/
def Call.fails (c : Call) : Prop :=
  match c.response with
  | Except.error _ => True
  | Except.ok out => out.Datapoints = []

/-- The call returned at least one data point. -/
def Call.returnsPoints (c : Call) : Prop :=
  ∃ out, c.response = Except.ok out ∧ out.Datapoints ≠ []

/-- The data points of a response can be selected from without dereferencing
a nil pointer: every point carries its timestamp, and every point that is
neither before `latest` nor before an earlier point of the response carries
the requested statistic (the other points are skipped before the statistic
is read). -/
def selectable (sTyp : statType) (latest : Time) (dps : List Datapoint) : Prop :=
  (∀ x ∈ dps, x.Timestamp ≠ none) ∧
    ∀ pre x post t, dps = pre ++ x :: post → x.Timestamp = some t → latest ≤ t →
      (∀ y ∈ pre, ∀ u, y.Timestamp = some u → u ≤ t) → statField sTyp x ≠ none

/-- The response of the call is an error, or its data points can be selected
from, starting at the zero time. -/
def Call.wellFormed (c : Call) : Prop :=
  match c.response with
  | Except.error _ => True
  | Except.ok out => selectable c.query.sTyp 0 out.Datapoints

/-- The response of the call is an error, or each of its data points carries
the timestamp and the requested statistic. -/
def Call.complete (c : Call) : Bool :=
  match c.response with
  | Except.error _ => true
  | Except.ok out =>
    out.Datapoints.all fun x => x.Timestamp.isSome && (statField c.query.sTyp x).isSome


/-- What `getLastPoint` returns for the call. -/
def Call.result (c : Call) : Run (Except Error Float64) :=
  selectResponse c.query.sTyp c.response

/-- The map after the call: a result that is a value is stored under the key of
the query. -/
def Call.store (c : Call) (stat : Stat) : Stat :=
  match c.result with
  | Run.done (Except.ok v) => stat.set c.query.key v
  | _ => stat

/-- The map after the calls, in order. -/
def storeCalls : List Call → Stat → Stat
  | [], stat => stat
  | c :: cs, stat => storeCalls cs (c.store stat)

/-- The call returned an error or zero data points: decidable. -/
instance Call.decidableFails (c : Call) : Decidable c.fails := by
  unfold Call.fails
  split <;> infer_instance

/-! ## Point selector: proofs -/

/-- The selection loop over a list that ends with `dp`. -/
theorem selectLoop_concat (sTyp : statType) (dp : Datapoint) :
    ∀ (dps : List Datapoint) (acc : Time × Float64),
      selectLoop sTyp acc (dps ++ [dp])
        = (selectLoop sTyp acc dps).andThen fun acc2 => selectStep sTyp acc2 dp := by
  intro dps
  induction dps with
  | nil =>
    intro acc
    simp only [List.nil_append, selectLoop, Run.andThen]
    cases selectStep sTyp acc dp <;> rfl
  | cons x xs ih =>
    intro acc
    simp only [List.cons_append, selectLoop]
    cases selectStep sTyp acc x with
    | done acc2 => exact ih acc2
    | panic msg => rfl

/-- A prefix of a list that can be selected from can be selected from. -/
theorem selectable_of_concat (sTyp : statType) (latest : Time) (dps : List Datapoint)
    (dp : Datapoint) (h : selectable sTyp latest (dps ++ [dp])) : selectable sTyp latest dps := by
  refine ⟨fun x hx => h.1 x (by simp [hx]), ?_⟩
  intro pre x post t hsplit hts hle hpre
  exact h.2 pre x (post ++ [dp]) t (by simp [hsplit]) hts hle hpre

/-- The selection loop on a list that can be selected from: it returns, either
unchanged when every point is before `latest`, or on the last point of maximal
timestamp. -/
theorem selectLoop_of_selectable (sTyp : statType) (latest : Time) (val : Float64) :
    ∀ dps : List Datapoint, selectable sTyp latest dps →
      (selectLoop sTyp (latest, val) dps = Run.done (latest, val) ∧
        ∀ y ∈ dps, ∀ u, y.Timestamp = some u → u < latest) ∨
      ∃ pre d post t v, dps = pre ++ d :: post ∧ d.Timestamp = some t ∧
        statField sTyp d = some v ∧ latest ≤ t ∧
        (∀ y ∈ pre, ∀ u, y.Timestamp = some u → u ≤ t) ∧
        (∀ y ∈ post, ∀ u, y.Timestamp = some u → u < t) ∧
        selectLoop sTyp (latest, val) dps = Run.done (t, v) := by
  intro dps
  induction dps using List.reverseRecOn with
  | nil => intro _; exact Or.inl ⟨rfl, by simp⟩
  | append_singleton init last ih =>
    intro hsel
    obtain ⟨tl, htl⟩ : ∃ tl, last.Timestamp = some tl := by
      cases h : last.Timestamp with
      | none => exact absurd h (hsel.1 last (by simp))
      | some tl => exact ⟨tl, rfl⟩
    rw [selectLoop_concat]
    rcases ih (selectable_of_concat sTyp latest init last hsel) with
      ⟨hloop, hbefore⟩ | ⟨pre, d, post, t, v, hsplit, hdt, hdv, hlt, hpre, hpost, hloop⟩
    · rw [hloop]
      by_cases hlt : tl < latest
      · left
        refine ⟨by simp [Run.andThen, selectStep, htl, hlt], ?_⟩
        intro y hy u hu
        rcases List.mem_append.mp hy with h | h
        · exact hbefore y h u hu
        · simp only [List.mem_singleton] at h
          subst h
          rw [htl] at hu
          cases hu
          exact hlt
      · right
        have hle : latest ≤ tl := not_lt.mp hlt
        have hinit : ∀ y ∈ init, ∀ u, y.Timestamp = some u → u ≤ tl :=
          fun y hy u hu => le_trans (le_of_lt (hbefore y hy u hu)) hle
        obtain ⟨vl, hvl⟩ : ∃ vl, statField sTyp last = some vl := by
          cases h : statField sTyp last with
          | none => exact absurd h (hsel.2 init last [] tl rfl htl hle hinit)
          | some vl => exact ⟨vl, rfl⟩
        exact ⟨init, last, [], tl, vl, rfl, htl, hvl, hle, hinit, by simp,
          by simp [Run.andThen, selectStep, htl, hlt, hvl]⟩
    · rw [hloop]
      right
      by_cases hlt2 : tl < t
      · refine ⟨pre, d, post ++ [last], t, v, by simp [hsplit], hdt, hdv, hlt, hpre, ?_,
          by simp [Run.andThen, selectStep, htl, hlt2]⟩
        intro y hy u hu
        rcases List.mem_append.mp hy with h | h
        · exact hpost y h u hu
        · simp only [List.mem_singleton] at h
          subst h
          rw [htl] at hu
          cases hu
          exact hlt2
      · have hle : t ≤ tl := not_lt.mp hlt2
        have hinit : ∀ y ∈ init, ∀ u, y.Timestamp = some u → u ≤ tl := by
          intro y hy u hu
          rw [hsplit] at hy
          rcases List.mem_append.mp hy with h | h
          · exact le_trans (hpre y h u hu) hle
          · rcases List.mem_cons.mp h with h | h
            · subst h
              rw [hdt] at hu
              cases hu
              exact hle
            · exact le_trans (le_of_lt (hpost y h u hu)) hle
        obtain ⟨vl, hvl⟩ : ∃ vl, statField sTyp last = some vl := by
          cases h : statField sTyp last with
          | none => exact absurd h (hsel.2 init last [] tl rfl htl (le_trans hlt hle) hinit)
          | some vl => exact ⟨vl, rfl⟩
        exact ⟨init, last, [], tl, vl, rfl, htl, hvl, le_trans hlt hle, hinit, by simp,
          by simp [Run.andThen, selectStep, htl, hlt2, hvl]⟩

/-- The selection loop returns on a list that can be selected from. -/
theorem selectLoop_done_of_selectable (sTyp : statType) (latest : Time) (val : Float64)
    (dps : List Datapoint) (h : selectable sTyp latest dps) :
    ∃ acc, selectLoop sTyp (latest, val) dps = Run.done acc := by
  rcases selectLoop_of_selectable sTyp latest val dps h with
    ⟨hloop, _⟩ | ⟨_, _, _, t, v, _, _, _, _, _, _, hloop⟩
  · exact ⟨_, hloop⟩
  · exact ⟨_, hloop⟩

/-- The selection loop returns only on a list that can be selected from. -/
theorem selectable_of_selectLoop_done (sTyp : statType) (latest : Time) (val : Float64) :
    ∀ (dps : List Datapoint) (acc : Time × Float64),
      selectLoop sTyp (latest, val) dps = Run.done acc → selectable sTyp latest dps := by
  intro dps
  induction dps using List.reverseRecOn with
  | nil =>
    intro _ _
    refine ⟨by simp, ?_⟩
    intro pre x post t hsplit
    simp at hsplit
  | append_singleton init last ih =>
    intro acc hdone
    rw [selectLoop_concat] at hdone
    cases hinit : selectLoop sTyp (latest, val) init with
    | panic msg => rw [hinit] at hdone; cases hdone
    | done acc1 =>
      rw [hinit] at hdone
      simp only [Run.andThen] at hdone
      have hsel := ih acc1 hinit
      obtain ⟨tl, htl⟩ : ∃ tl, last.Timestamp = some tl := by
        cases h : last.Timestamp with
        | none => simp [selectStep, h] at hdone
        | some tl => exact ⟨tl, rfl⟩
      refine ⟨?_, ?_⟩
      · intro x hx
        rcases List.mem_append.mp hx with h | h
        · exact hsel.1 x h
        · simp only [List.mem_singleton] at h
          subst h
          simp [htl]
      · intro pre x post t hsplit hts hle hpre
        rcases List.eq_nil_or_concat post with hpost | ⟨post2, z, hpost⟩
        · subst hpost
          have hparts := List.append_inj' hsplit rfl
          obtain ⟨hi, hl⟩ := hparts
          simp only [List.cons.injEq, and_true] at hl
          subst hl
          subst hi
          rw [htl] at hts
          cases hts
          have hacc : acc1.1 ≤ tl := by
            rcases selectLoop_of_selectable sTyp latest val init hsel with
              ⟨hloop, _⟩ | ⟨pre0, d0, post0, t0, v0, hsplit0, hd0, _, _, _, _, hloop⟩
            · rw [hloop] at hinit
              cases hinit
              exact hle
            · rw [hloop] at hinit
              cases hinit
              exact hpre d0 (by rw [hsplit0]; simp) t0 hd0
          intro hnone
          simp [selectStep, htl, not_lt.mpr hacc, hnone] at hdone
        · subst hpost
          have hparts : init = pre ++ x :: post2 ∧ [last] = [z] := by
            have h2 : init ++ [last] = (pre ++ x :: post2) ++ [z] := by
              rw [hsplit]; simp
            exact List.append_inj' h2 rfl
          exact hsel.2 pre x post2 t hparts.1 hts hle hpre

/-- Data points that all carry the timestamp and the requested statistic can
be selected from. -/
theorem selectable_of_all (sTyp : statType) (latest : Time) (dps : List Datapoint)
    (h : ∀ x ∈ dps, x.Timestamp ≠ none ∧ statField sTyp x ≠ none) :
    selectable sTyp latest dps := by
  refine ⟨fun x hx => (h x hx).1, ?_⟩
  intro pre x post t hsplit _ _ _
  exact (h x (by rw [hsplit]; simp)).2

theorem Call.wellFormed_of_complete (c : Call) (h : c.complete = true) : c.wellFormed := by
  unfold Call.complete at h
  unfold Call.wellFormed
  split
  · trivial
  · next out heq =>
    rw [heq] at h
    simp only [List.all_eq_true, Bool.and_eq_true] at h
    apply selectable_of_all
    intro x hx
    have hx2 := h x hx
    constructor
    · intro hn; rw [hn] at hx2; simp at hx2
    · intro hn; rw [hn] at hx2; simp at hx2

/-! ## Snapshot assembler: the loops issue the queries of `fetchQueries` -/

theorem runQueries_append {σ : Type} (cw : CloudWatch σ) (p : ALBPlugin) :
    ∀ (qs qs2 : List Query) (acc : Stat × σ),
      runQueries cw p (qs ++ qs2) acc
        = (runQueries cw p qs acc).andThen fun acc2 => runQueries cw p qs2 acc2 := by
  intro qs
  induction qs with
  | nil => intro qs2 acc; rfl
  | cons q qs ih =>
    intro qs2 acc
    obtain ⟨stat, w⟩ := acc
    simp only [List.cons_append, runQueries]
    split
    · exact ih _ _
    · exact ih _ _
    · rfl

theorem rangeMetrics_eq_runQueries {σ : Type} (cw : CloudWatch σ) (p : ALBPlugin)
    (dimensions : List Dimension) (sTyp : statType) (key : String → String) :
    ∀ (mets : List String) (acc : Stat × σ),
      rangeMetrics cw p dimensions sTyp key mets acc
        = runQueries cw p (loopQueries dimensions sTyp key mets) acc := by
  intro mets
  induction mets with
  | nil => intro acc; rfl
  | cons met mets ih =>
    intro acc
    obtain ⟨stat, w⟩ := acc
    simp only [rangeMetrics, loopQueries, List.map_cons, runQueries]
    split
    · exact ih _
    · exact ih _
    · rfl

theorem rangeTgname_eq_runQueries {σ : Type} (cw : CloudWatch σ) (p : ALBPlugin)
    (acc : Stat × σ) (tgname : String) :
    rangeTgname cw p acc tgname = runQueries cw p (tgQueries p tgname) acc := by
  simp only [rangeTgname, tgQueries, runQueries_append, rangeMetrics_eq_runQueries]
  cases runQueries cw p _ acc with
  | panic msg => rfl
  | done a1 =>
    simp only [Run.andThen]
    cases runQueries cw p _ a1 with
    | panic msg => rfl
    | done a2 => rfl

theorem rangeTgnames_eq_runQueries {σ : Type} (cw : CloudWatch σ) (p : ALBPlugin) :
    ∀ (tgnames : List String) (acc : Stat × σ),
      rangeTgnames cw p tgnames acc
        = runQueries cw p ((tgnames.map (tgQueries p)).flatten) acc := by
  intro tgnames
  induction tgnames with
  | nil => intro acc; rfl
  | cons t ts ih =>
    intro acc
    simp only [rangeTgnames, List.map_cons, List.flatten_cons, runQueries_append,
      rangeTgname_eq_runQueries]
    cases runQueries cw p (tgQueries p t) acc with
    | panic msg => rfl
    | done a1 => exact ih a1

/-- The method `FetchMetrics` issues the queries of `fetchQueries` in order. -/
theorem FetchMetrics_eq_runQueries {σ : Type} (cw : CloudWatch σ) (p : ALBPlugin) (w : σ)
    (hlb : p.Lbname ≠ "") :
    FetchMetrics cw p w
      = (runQueries cw p (fetchQueries p) (Stat.empty, w)).andThen fun acc =>
          Run.done ((acc.1, none), acc.2) := by
  simp only [FetchMetrics, hlb, ne_eq, not_false_eq_true, if_true, fetchQueries, lbQueries,
    runQueries_append, rangeMetrics_eq_runQueries, rangeTgnames_eq_runQueries]
  cases runQueries cw p _ (Stat.empty, w) with
  | panic msg => rfl
  | done a1 =>
    simp only [Run.andThen]
    cases runQueries cw p _ a1 with
    | panic msg => rfl
    | done a2 => rfl

/-- The run of the queries and the calls it makes, one query further. -/
theorem runQueries_cons {σ : Type} (cw : CloudWatch σ) (p : ALBPlugin) (q : Query)
    (qs : List Query) (stat : Stat) (w : σ) (response : Except Error GetMetricStatisticsOutput)
    (w1 : σ)
    (hresp : cw.GetMetricStatistics w
      (getLastPointInput p (truncate (cw.Now w) minute) q.dimensions q.metricName q.sTyp)
        = (response, w1)) :
    runQueries cw p (q :: qs) (stat, w)
      = (match selectResponse q.sTyp response with
        | Run.done (Except.ok v) => runQueries cw p qs (stat.set q.key v, w1)
        | Run.done (Except.error _) => runQueries cw p qs (stat, w1)
        | Run.panic msg => Run.panic msg) ∧
    callsFrom cw p (q :: qs) w
      = (match selectResponse q.sTyp response with
        | Run.done _ => ⟨q, response⟩ :: callsFrom cw p qs w1
        | Run.panic _ => [⟨q, response⟩]) := by
  constructor
  · simp only [runQueries, getLastPoint, hresp]
    cases selectResponse q.sTyp response with
    | panic msg => rfl
    | done r => cases r <;> rfl
  · simp only [callsFrom, hresp]

/-- When the run of the queries returns, the map is the one stored by the calls,
there is one call for each query, and no call panics. -/
theorem runQueries_done {σ : Type} (cw : CloudWatch σ) (p : ALBPlugin) :
    ∀ (qs : List Query) (stat : Stat) (w : σ) (r : Stat × σ),
      runQueries cw p qs (stat, w) = Run.done r →
      r.1 = storeCalls (callsFrom cw p qs w) stat ∧
        (callsFrom cw p qs w).map Call.query = qs ∧
        ∀ c ∈ callsFrom cw p qs w, ∃ v, c.result = Run.done v := by
  intro qs
  induction qs with
  | nil =>
    intro stat w r h
    simp only [runQueries, Run.done.injEq] at h
    subst h
    exact ⟨rfl, rfl, by simp [callsFrom]⟩
  | cons q qs ih =>
    intro stat w r h
    rcases hresp : cw.GetMetricStatistics w
      (getLastPointInput p (truncate (cw.Now w) minute) q.dimensions q.metricName q.sTyp)
      with ⟨response, w1⟩
    obtain ⟨hrun, hcalls⟩ := runQueries_cons cw p q qs stat w response w1 hresp
    rw [hrun] at h
    rw [hcalls]
    cases hsel : selectResponse q.sTyp response with
    | panic msg => rw [hsel] at h; cases h
    | done res =>
      rw [hsel] at h
      cases res with
      | ok v =>
        obtain ⟨h1, h2, h3⟩ := ih _ _ _ h
        refine ⟨?_, by simp [h2], ?_⟩
        · simp only [storeCalls, Call.store, Call.result, hsel]
          exact h1
        · intro c hc
          rcases List.mem_cons.mp hc with rfl | hc
          · exact ⟨_, hsel⟩
          · exact h3 c hc
      | error e =>
        obtain ⟨h1, h2, h3⟩ := ih _ _ _ h
        refine ⟨?_, by simp [h2], ?_⟩
        · simp only [storeCalls, Call.store, Call.result, hsel]
          exact h1
        · intro c hc
          rcases List.mem_cons.mp hc with rfl | hc
          · exact ⟨_, hsel⟩
          · exact h3 c hc

/-- The run of the queries returns when no call panics. -/
theorem runQueries_total {σ : Type} (cw : CloudWatch σ) (p : ALBPlugin) :
    ∀ (qs : List Query) (stat : Stat) (w : σ),
      (∀ c ∈ callsFrom cw p qs w, ∃ v, c.result = Run.done v) →
      ∃ r, runQueries cw p qs (stat, w) = Run.done r := by
  intro qs
  induction qs with
  | nil => intro stat w _; exact ⟨_, rfl⟩
  | cons q qs ih =>
    intro stat w h
    rcases hresp : cw.GetMetricStatistics w
      (getLastPointInput p (truncate (cw.Now w) minute) q.dimensions q.metricName q.sTyp)
      with ⟨response, w1⟩
    obtain ⟨hrun, hcalls⟩ := runQueries_cons cw p q qs stat w response w1 hresp
    rw [hcalls] at h
    rw [hrun]
    cases hsel : selectResponse q.sTyp response with
    | panic msg =>
      rw [hsel] at h
      obtain ⟨v, hv⟩ := h ⟨q, response⟩ (by simp)
      simp only [Call.result, hsel] at hv
      cases hv
    | done res =>
      rw [hsel] at h
      have hrest : ∀ c ∈ callsFrom cw p qs w1, ∃ v, c.result = Run.done v :=
        fun c hc => h c (List.mem_cons_of_mem _ hc)
      cases res with
      | ok v => exact ih _ _ hrest
      | error e => exact ih _ _ hrest

/-- The query of a call is one of the queries issued. -/
theorem callsFrom_query_mem {σ : Type} (cw : CloudWatch σ) (p : ALBPlugin) :
    ∀ (qs : List Query) (w : σ), ∀ c ∈ callsFrom cw p qs w, c.query ∈ qs := by
  intro qs
  induction qs with
  | nil => intro w c hc; simp [callsFrom] at hc
  | cons q qs ih =>
    intro w c hc
    rcases hresp : cw.GetMetricStatistics w
      (getLastPointInput p (truncate (cw.Now w) minute) q.dimensions q.metricName q.sTyp)
      with ⟨response, w1⟩
    rw [(runQueries_cons cw p q qs Stat.empty w response w1 hresp).2] at hc
    cases hsel : selectResponse q.sTyp response with
    | panic msg =>
      rw [hsel] at hc
      simp only [List.mem_singleton] at hc
      subst hc
      exact List.mem_cons_self _ _
    | done res =>
      rw [hsel] at hc
      rcases List.mem_cons.mp hc with rfl | hc
      · exact List.mem_cons_self _ _
      · exact List.mem_cons_of_mem _ (ih w1 c hc)

/-- A call is well formed exactly when its selection does not panic. -/
theorem Call.wellFormed_iff (c : Call) : c.wellFormed ↔ ∃ v, c.result = Run.done v := by
  unfold Call.wellFormed Call.result selectResponse
  cases c.response with
  | error e => simp
  | ok out =>
    simp only
    by_cases hlen : out.Datapoints.length = 0
    · have hnil : out.Datapoints = [] := List.length_eq_zero.mp hlen
      simp only [hlen, if_true]
      constructor
      · intro _; exact ⟨_, rfl⟩
      · intro _
        rw [hnil]
        exact selectable_of_all _ _ _ (by simp)
    · simp only [hlen, if_false]
      constructor
      · intro h
        obtain ⟨acc, hacc⟩ := selectLoop_done_of_selectable c.query.sTyp 0 0 out.Datapoints h
        exact ⟨_, by rw [hacc]⟩
      · intro h
        obtain ⟨v, hv⟩ := h
        cases hloop : selectLoop c.query.sTyp (0, 0) out.Datapoints with
        | panic msg => rw [hloop] at hv; cases hv
        | done acc => exact selectable_of_selectLoop_done c.query.sTyp 0 0 _ acc hloop

/-- The result of a call that fails is an error. -/
theorem Call.result_of_fails (c : Call) (h : c.fails) : ∃ e, c.result = Run.done (Except.error e) := by
  unfold Call.fails at h
  unfold Call.result selectResponse
  cases hr : c.response with
  | error e => exact ⟨e, rfl⟩
  | ok out =>
    rw [hr] at h
    simp only at h
    exact ⟨"fetched no datapoints", by simp [h]⟩

/-- The result of a well-formed call that returns points is a value: the one on
which the selection loop ends. -/
theorem Call.result_of_returnsPoints (c : Call) (dps : List Datapoint)
    (hresp : c.response = Except.ok ⟨dps⟩) (hne : dps ≠ []) (hwf : c.wellFormed) :
    ∃ acc, selectLoop c.query.sTyp (0, 0) dps = Run.done acc ∧
      c.result = Run.done (Except.ok acc.2) := by
  unfold Call.wellFormed at hwf
  rw [hresp] at hwf
  simp only at hwf
  obtain ⟨acc, hacc⟩ := selectLoop_done_of_selectable c.query.sTyp 0 0 dps hwf
  refine ⟨acc, hacc, ?_⟩
  have hlen : dps.length ≠ 0 := fun h => hne (List.length_eq_zero.mp h)
  simp only [Call.result, selectResponse, hresp, hlen, if_false, hacc]

theorem Call.store_of_value (c : Call) (stat : Stat) (v : Float64)
    (h : c.result = Run.done (Except.ok v)) : c.store stat = stat.set c.query.key v := by
  simp only [Call.store, h]

theorem Call.store_of_error (c : Call) (stat : Stat) (e : Error)
    (h : c.result = Run.done (Except.error e)) : c.store stat = stat := by
  simp only [Call.store, h]

theorem Call.store_of_ne_key (c : Call) (stat : Stat) (k : String) (h : c.query.key ≠ k) :
    c.store stat k = stat k := by
  have hk2 : ¬ k = c.query.key := fun h2 => h h2.symm
  unfold Call.store
  cases c.result with
  | panic msg => rfl
  | done r =>
    cases r with
    | error e => rfl
    | ok v => simp [Stat.set, hk2]

theorem Call.store_isSome (c : Call) (stat : Stat) (k : String) (h : stat k ≠ none) :
    c.store stat k ≠ none := by
  unfold Call.store
  cases c.result with
  | panic msg => exact h
  | done r =>
    cases r with
    | error e => exact h
    | ok v => by_cases hk : k = c.query.key <;> simp [Stat.set, hk, h]

/-- A key whose calls all fail keeps the value it had. -/
theorem storeCalls_of_fails (k : String) :
    ∀ (cs : List Call) (stat : Stat),
      (∀ c ∈ cs, c.query.key = k → c.fails) → storeCalls cs stat k = stat k := by
  intro cs
  induction cs with
  | nil => intro stat _; rfl
  | cons c cs ih =>
    intro stat h
    have hrest : ∀ c2 ∈ cs, c2.query.key = k → c2.fails :=
      fun c2 hc2 => h c2 (List.mem_cons_of_mem _ hc2)
    simp only [storeCalls]
    rw [ih _ hrest]
    by_cases hk : c.query.key = k
    · obtain ⟨e, he⟩ := Call.result_of_fails c (h c (List.mem_cons_self _ _) hk)
      rw [Call.store_of_error c stat e he]
    · exact Call.store_of_ne_key c stat k hk

/-- A key that is present stays present. -/
theorem storeCalls_isSome (k : String) :
    ∀ (cs : List Call) (stat : Stat), stat k ≠ none → storeCalls cs stat k ≠ none := by
  intro cs
  induction cs with
  | nil => intro stat h; exact h
  | cons c cs ih =>
    intro stat h
    simp only [storeCalls]
    exact ih _ (Call.store_isSome c stat k h)

/-- The key of a call whose result is a value is present afterwards. -/
theorem storeCalls_of_value (c : Call) (v : Float64) (hv : c.result = Run.done (Except.ok v)) :
    ∀ (cs : List Call) (stat : Stat), c ∈ cs → storeCalls cs stat c.query.key ≠ none := by
  intro cs
  induction cs with
  | nil => intro stat h; cases h
  | cons c2 cs ih =>
    intro stat hmem
    simp only [storeCalls]
    rcases List.mem_cons.mp hmem with rfl | hin
    · apply storeCalls_isSome
      rw [Call.store_of_value c stat v hv]
      simp [Stat.set]
    · exact ih _ hin

/-- When the calls of a key all have the value `v` as result and one of them is
made, the key holds `v` afterwards. -/
theorem storeCalls_value (k : String) (v : Float64) :
    ∀ (cs : List Call) (stat : Stat),
      (∀ c ∈ cs, c.query.key = k → c.result = Run.done (Except.ok v)) →
      ((∃ c ∈ cs, c.query.key = k) ∨ stat k = some v) →
      storeCalls cs stat k = some v := by
  intro cs
  induction cs with
  | nil =>
    intro stat _ h
    rcases h with ⟨c, hc, _⟩ | h
    · cases hc
    · exact h
  | cons c cs ih =>
    intro stat hall h
    have hrest : ∀ c2 ∈ cs, c2.query.key = k → c2.result = Run.done (Except.ok v) :=
      fun c2 hc2 => hall c2 (List.mem_cons_of_mem _ hc2)
    simp only [storeCalls]
    apply ih _ hrest
    by_cases hk : c.query.key = k
    · right
      rw [Call.store_of_value c stat v (hall c (List.mem_cons_self _ _) hk)]
      simp [Stat.set, hk]
    · rcases h with ⟨c2, hc2, hkey⟩ | h
      · rcases List.mem_cons.mp hc2 with rfl | hin
        · exact absurd hkey hk
        · exact Or.inl ⟨c2, hin, hkey⟩
      · right
        rw [Call.store_of_ne_key c stat k hk]
        exact h

/-- When `FetchMetrics` returns, its error is nil, its map is the one stored by
the calls it made, it made one call for each query in order, and every call
was well formed. -/
theorem FetchMetrics_done {σ : Type} (cw : CloudWatch σ) (p : ALBPlugin) (w : σ)
    (r : (Stat × Option Error) × σ) (h : FetchMetrics cw p w = Run.done r) :
    r.1.2 = none ∧ r.1.1 = storeCalls (fetchCalls cw p w) Stat.empty ∧
      (p.Lbname ≠ "" → (fetchCalls cw p w).map Call.query = fetchQueries p) ∧
      ∀ c ∈ fetchCalls cw p w, c.wellFormed := by
  by_cases hlb : p.Lbname = ""
  · simp only [FetchMetrics, hlb, ne_eq, not_true_eq_false, if_false, Run.done.injEq] at h
    subst h
    simp [fetchCalls, hlb, storeCalls]
  · rw [FetchMetrics_eq_runQueries cw p w hlb] at h
    cases hrun : runQueries cw p (fetchQueries p) (Stat.empty, w) with
    | panic msg => rw [hrun] at h; cases h
    | done acc =>
      rw [hrun] at h
      simp only [Run.andThen, Run.done.injEq] at h
      subst h
      obtain ⟨h1, h2, h3⟩ := runQueries_done cw p _ _ _ _ hrun
      have hcalls : fetchCalls cw p w = callsFrom cw p (fetchQueries p) w := by
        simp [fetchCalls, hlb]
      rw [hcalls]
      exact ⟨rfl, h1, fun _ => h2, fun c hc => (Call.wellFormed_iff c).mpr (h3 c hc)⟩

/-- The method `FetchMetrics` returns when every call it makes is well
formed. -/
theorem FetchMetrics_total {σ : Type} (cw : CloudWatch σ) (p : ALBPlugin) (w : σ)
    (hwf : ∀ c ∈ fetchCalls cw p w, c.wellFormed) :
    ∃ r, FetchMetrics cw p w = Run.done r := by
  by_cases hlb : p.Lbname = ""
  · exact ⟨((Stat.empty, none), w),
      by simp only [FetchMetrics, hlb, ne_eq, not_true_eq_false, if_false]⟩
  · have hcalls : fetchCalls cw p w = callsFrom cw p (fetchQueries p) w := by
      simp [fetchCalls, hlb]
    rw [hcalls] at hwf
    obtain ⟨acc, hacc⟩ := runQueries_total cw p (fetchQueries p) Stat.empty w
      (fun c hc => (Call.wellFormed_iff c).mp (hwf c hc))
    exact ⟨_, by rw [FetchMetrics_eq_runQueries cw p w hlb, hacc]; rfl⟩

/-- The query of a call of `FetchMetrics` is one of `fetchQueries`. -/
theorem fetchCalls_query_mem {σ : Type} (cw : CloudWatch σ) (p : ALBPlugin) (w : σ) (c : Call)
    (hc : c ∈ fetchCalls cw p w) : c.query ∈ fetchQueries p := by
  unfold fetchCalls at hc
  split at hc
  · exact callsFrom_query_mem cw p _ w c hc
  · cases hc


/-! ## The keys of the queries -/

/-- The metric names and policies of the load-balancer-level loops. -/
def lbTable : List (String × statType) :=
  [("ProcessedBytes", statType.stSum),
    ("NewConnectionCount", statType.stSum), ("RejectedConnectionCount", statType.stSum),
    ("ActiveConnectionCount", statType.stSum), ("TargetConnectionErrorCount", statType.stSum),
    ("RequestCount", statType.stSum),
    ("HTTPCode_ELB_5XX_Count", statType.stSum), ("HTTPCode_ELB_4XX_Count", statType.stSum),
    ("HTTPCode_Target_2XX_Count", statType.stSum), ("HTTPCode_Target_3XX_Count", statType.stSum),
    ("HTTPCode_Target_4XX_Count", statType.stSum), ("HTTPCode_Target_5XX_Count", statType.stSum),
    ("TargetResponseTime", statType.stAve)]

/-- The key prefixes, metric names and policies of the loops over a target
group. -/
def tgTable : List (String × String × statType) :=
  [("alb.httpcode_count_per_group.", "HTTPCode_Target_2XX_Count", statType.stSum),
    ("alb.httpcode_count_per_group.", "HTTPCode_Target_3XX_Count", statType.stSum),
    ("alb.httpcode_count_per_group.", "HTTPCode_Target_4XX_Count", statType.stSum),
    ("alb.httpcode_count_per_group.", "HTTPCode_Target_5XX_Count", statType.stSum),
    ("alb.request_per_group.", "RequestCountPerTarget", statType.stSum),
    ("alb.host_count.", "HealthyHostCount", statType.stAve),
    ("alb.host_count.", "UnHealthyHostCount", statType.stAve),
    ("alb.response_per_group.", "TargetResponseTime", statType.stAve)]

theorem lbQueries_eq_map (p : ALBPlugin) :
    lbQueries p = lbTable.map fun e => ⟨ld p, e.1, e.2, e.1⟩ := rfl

theorem tgQueries_eq_map (p : ALBPlugin) (tgname : String) :
    tgQueries p tgname = tgTable.map fun e =>
      ⟨td p tgname, e.2.1, e.2.2, e.1 ++ tgMetricName tgname ++ "." ++ e.2.1⟩ := rfl

theorem mem_fetchQueries (p : ALBPlugin) (q : Query) :
    q ∈ fetchQueries p ↔ q ∈ lbQueries p ∨ ∃ t ∈ p.Tgnames, q ∈ tgQueries p t := by
  simp [fetchQueries, List.mem_flatten]

theorem head_data_append (a b : String) (c : Char) (h : a.data.head? = some c) :
    (a ++ b).data.head? = some c := by
  rw [String.data_append]
  cases hd : a.data with
  | nil => rw [hd] at h; cases h
  | cons x xs => rw [hd] at h; simpa using h

/-- The key of a query scoped to a target group begins with `a`. -/
theorem tgQueries_key_head (p : ALBPlugin) (t : String) (q : Query) (hq : q ∈ tgQueries p t) :
    q.key.data.head? = some 'a' := by
  rw [tgQueries_eq_map] at hq
  obtain ⟨e, he, rfl⟩ := List.mem_map.mp hq
  have hall : ∀ e ∈ tgTable, e.1.data.head? = some 'a' := by decide
  have hpre := hall e he
  exact head_data_append _ _ _ (head_data_append _ _ _ (head_data_append _ _ _ hpre))

/-- The key of a load-balancer-level query is the metric name; it does not
begin with `a`, and it settles the query. -/
theorem lbQueries_key (p : ALBPlugin) (q : Query) (hq : q ∈ lbQueries p) :
    q.key.data.head? ≠ some 'a' ∧
      q = ⟨ld p, q.key, if q.key = "TargetResponseTime" then statType.stAve else statType.stSum,
        q.key⟩ := by
  rw [lbQueries_eq_map] at hq
  obtain ⟨e, he, rfl⟩ := List.mem_map.mp hq
  have hall : ∀ e ∈ lbTable, e.1.data.head? ≠ some 'a' ∧
      e.2 = if e.1 = "TargetResponseTime" then statType.stAve else statType.stSum := by
    decide
  have h := hall e he
  refine ⟨h.1, ?_⟩
  simp only [Query.mk.injEq, true_and, and_true]
  exact h.2

/-- A load-balancer-level key is written by one query only. -/
theorem lbQueries_key_unique (p : ALBPlugin) (q0 : Query) (hq0 : q0 ∈ lbQueries p) (q : Query)
    (hq : q ∈ fetchQueries p) (hkey : q.key = q0.key) : q = q0 := by
  rcases (mem_fetchQueries p q).mp hq with h | ⟨t, _, h⟩
  · rw [(lbQueries_key p q h).2, (lbQueries_key p q0 hq0).2, hkey]
  · have h1 := tgQueries_key_head p t q h
    rw [hkey] at h1
    exact absurd h1 (lbQueries_key p q0 hq0).1

/-- The value stored for a load-balancer-level query whose answer is always

a load-balancer-level loop. -/
theorem graphdef_lb_covered :
    ∀ Gg ∈ graphdef, '#' ∉ Gg.1.data → ∀ met ∈ Gg.2.Metrics,
      ∃ sTyp ∈ [statType.stAve, statType.stSum], (met.Name, sTyp) ∈ lbTable := by
  decide


/-! ## Calls of one collection cycle -/

/-- The load-balancer-level queries are pairwise distinct. -/
theorem lbQueries_nodup (p : ALBPlugin) : (lbQueries p).Nodup := by
  apply List.Nodup.of_map Query.key
  have h : (lbQueries p).map Query.key = lbTable.map Prod.fst := by
    rw [lbQueries_eq_map]
    simp [List.map_map, Function.comp_def]
  rw [h]
  decide

/-- The call made for a load-balancer-level key is the only call with that
key. -/
theorem lb_call_unique (p : ALBPlugin) (calls : List Call)
    (hmap : calls.map Call.query = fetchQueries p) (c1 c2 : Call) (h1 : c1 ∈ calls)
    (h2 : c2 ∈ calls) (hlb : c1.query ∈ lbQueries p) (hkey : c2.query.key = c1.query.key) :
    c2 = c1 := by
  have hq : c2.query = c1.query :=
    lbQueries_key_unique p c1.query hlb c2.query
      (by rw [← hmap]; exact List.mem_map_of_mem _ h2) hkey
  unfold fetchQueries at hmap
  obtain ⟨a, b, hab, ha, hb⟩ := List.map_eq_append_iff.mp hmap
  have hna : ∀ c ∈ calls, c.query ∈ lbQueries p → c ∈ a := by
    intro c hc hcq
    rw [hab] at hc
    rcases List.mem_append.mp hc with h | h
    · exact h
    · have hcb : c.query ∈ (p.Tgnames.map (tgQueries p)).flatten := by
        rw [← hb]; exact List.mem_map_of_mem _ h
      obtain ⟨l, hl, hcl⟩ := List.mem_flatten.mp hcb
      obtain ⟨t, _, rfl⟩ := List.mem_map.mp hl
      exact absurd (tgQueries_key_head p t c.query hcl) (lbQueries_key p c.query hcq).1
  have hnodup : (a.map Call.query).Nodup := by rw [ha]; exact lbQueries_nodup p
  exact List.inj_on_of_nodup_map hnodup (hna c2 h2 (by rw [hq]; exact hlb)) (hna c1 h1 hlb) hq

/-- The response of a call is what the client answered to its query in some
state. -/
theorem callsFrom_response {σ : Type} (cw : CloudWatch σ) (p : ALBPlugin) :
    ∀ (qs : List Query) (w : σ), ∀ c ∈ callsFrom cw p qs w,
      ∃ w0, c.response = (cw.GetMetricStatistics w0
        (getLastPointInput p (truncate (cw.Now w0) minute) c.query.dimensions
          c.query.metricName c.query.sTyp)).1 := by
  intro qs
  induction qs with
  | nil => intro w c hc; simp [callsFrom] at hc
  | cons q qs ih =>
    intro w c hc
    rcases hresp : cw.GetMetricStatistics w
      (getLastPointInput p (truncate (cw.Now w) minute) q.dimensions q.metricName q.sTyp)
      with ⟨response, w1⟩
    rw [(runQueries_cons cw p q qs Stat.empty w response w1 hresp).2] at hc
    have hhead : ∃ w0, (⟨q, response⟩ : Call).response = (cw.GetMetricStatistics w0
        (getLastPointInput p (truncate (cw.Now w0) minute) q.dimensions
          q.metricName q.sTyp)).1 := ⟨w, by rw [hresp]⟩
    cases hsel : selectResponse q.sTyp response with
    | panic msg =>
      rw [hsel] at hc
      simp only [List.mem_singleton] at hc
      subst hc
      exact hhead
    | done res =>
      rw [hsel] at hc
      rcases List.mem_cons.mp hc with rfl | hc
      · exact hhead
      · exact ih w1 c hc

/-- A call for a target group of empty name fails: the request does not pass
the validation of the client. -/
theorem fetchCalls_empty_name_fails {σ : Type} (cw : CloudWatch σ) (p : ALBPlugin) (w : σ)
    (c : Call) (hc : c ∈ fetchCalls cw p w) (hq : c.query ∈ tgQueries p "") : c.fails := by
  have hdim : c.query.dimensions = td p "" := by
    rw [tgQueries_eq_map] at hq
    obtain ⟨e, _, he⟩ := List.mem_map.mp hq
    rw [← he]
  unfold fetchCalls at hc
  split at hc
  · obtain ⟨w0, hw0⟩ := callsFrom_response cw p _ w c hc
    have hval : (getLastPointInput p (truncate (cw.Now w0) minute) c.query.dimensions
        c.query.metricName c.query.sTyp).Validate = false := by
      simp [GetMetricStatisticsInput.Validate, getLastPointInput, hdim, td, Dimension.Validate]
    simp only [CloudWatch.GetMetricStatistics, hval] at hw0
    simp [Call.fails, hw0]
  · cases hc

/-- A key that is present was stored by a call that did not fail. -/
theorem storeCalls_origin (k : String) (cs : List Call) (h : storeCalls cs Stat.empty k ≠ none) :
    ∃ c ∈ cs, c.query.key = k ∧ ¬ c.fails := by
  by_contra hnone
  apply h
  have hall : ∀ c ∈ cs, c.query.key = k → c.fails := by
    intro c hc hk
    by_contra hf
    exact hnone ⟨c, hc, hk, hf⟩
  rw [storeCalls_of_fails k cs Stat.empty hall]
  rfl

/-! ## Pattern matching: proofs -/

theorem matchHere_nil (s : List Char) : matchHere [] s = some ([], []) := by
  cases s <;> rfl

theorem matchHere_lit_nil (c : Char) (rest : Regexp) :
    matchHere (RegexItem.lit c :: rest) [] = none := rfl

theorem matchHere_lit_cons (c d : Char) (rest : Regexp) (ds : List Char) :
    matchHere (RegexItem.lit c :: rest) (d :: ds)
      = if d = c then
          match matchHere rest ds with
          | some (m, g) => some (d :: m, g)
          | none => none
        else none := rfl

theorem matchHere_greedy (capture : Bool) (rest : Regexp) (s : List Char) :
    matchHere (RegexItem.anyPlus true capture :: rest) s
      = match greedyPlus (matchHere rest) s with
        | some (w, (m, g)) => some (w ++ m, if capture then w :: g else g)
        | none => none := by
  cases s <;> rfl

theorem matchHere_lazy (capture : Bool) (rest : Regexp) (s : List Char) :
    matchHere (RegexItem.anyPlus false capture :: rest) s
      = match lazyPlus (matchHere rest) s with
        | some (w, (m, g)) => some (w ++ m, if capture then w :: g else g)
        | none => none := by
  cases s <;> rfl

theorem greedyPlus_cons (k : List Char → Option MatchResult) (c : Char) (cs : List Char)
    (hc : c ≠ '\n') :
    greedyPlus k (c :: cs)
      = match greedyPlus k cs with
        | some (w, r) => some (c :: w, r)
        | none =>
          match k cs with
          | some r => some ([c], r)
          | none => none := by
  simp only [greedyPlus, hc, if_false]

theorem lazyPlus_cons (k : List Char → Option MatchResult) (c : Char) (cs : List Char)
    (hc : c ≠ '\n') :
    lazyPlus k (c :: cs)
      = match k cs with
        | some r => some ([c], r)
        | none =>
          match lazyPlus k cs with
          | some (w, r) => some (c :: w, r)
          | none => none := by
  simp only [lazyPlus, hc, if_false]

/-- A literal prefix of the pattern consumes the same prefix of the text. -/
theorem matchHere_lits (items : Regexp) (s : List Char) :
    ∀ pre : List Char,
      matchHere (pre.map RegexItem.lit ++ items) (pre ++ s)
        = match matchHere items s with
          | some (m, g) => some (pre ++ m, g)
          | none => none := by
  intro pre
  induction pre with
  | nil =>
    simp only [List.map_nil, List.nil_append]
    cases matchHere items s with
    | none => rfl
    | some r => rfl
  | cons c pre ih =>
    simp only [List.map_cons, List.cons_append]
    rw [matchHere_lit_cons, if_pos rfl, ih]
    cases matchHere items s with
    | none => rfl
    | some r => rfl

/-- A match at the first position is the leftmost match. -/
theorem findSubmatch_of_matchHere (re : Regexp) (s m : List Char) (g : List (List Char))
    (h : matchHere re s = some (m, g)) : findSubmatch re s = m :: g := by
  cases s with
  | nil => simp only [findSubmatch, h]
  | cons c cs => simp only [findSubmatch, h]

/-- A greedy repetition before a continuation that always succeeds with the
same result succeeds on a character that is not a newline. -/
theorem greedyPlus_some (k : List Char → Option MatchResult) (r0 : MatchResult)
    (hk : ∀ t, k t = some r0) :
    ∀ (cs : List Char) (c : Char), c ≠ '\n' → ∃ w, greedyPlus k (c :: cs) = some (w, r0) := by
  intro cs
  induction cs with
  | nil =>
    intro c hc
    refine ⟨[c], ?_⟩
    rw [greedyPlus_cons k c [] hc, hk]
    rfl
  | cons d ds ih =>
    intro c hc
    rw [greedyPlus_cons k c (d :: ds) hc]
    by_cases hd : d = '\n'
    · refine ⟨[c], ?_⟩
      have : greedyPlus k (d :: ds) = none := by simp only [greedyPlus, hd, if_true]
      rw [this, hk]
    · obtain ⟨w, hw⟩ := ih d hd
      exact ⟨c :: w, by rw [hw]⟩

/-- The lazy repetition stops at the first slash: on `n/tail`, with `n`
non-empty and free of slashes and newlines, it consumes exactly `n` when the
continuation matches `/tail` and matches nothing that begins otherwise. -/
theorem lazyPlus_segment (k : List Char → Option MatchResult) (tail : List Char)
    (r : MatchResult) (hk : k ('/' :: tail) = some r)
    (hfail : ∀ (b : Char) (t : List Char), b ≠ '/' → k (b :: t) = none) :
    ∀ n : List Char, n ≠ [] → '/' ∉ n → '\n' ∉ n →
      lazyPlus k (n ++ '/' :: tail) = some (n, r) := by
  intro n
  induction n with
  | nil => intro h; exact absurd rfl h
  | cons a n ih =>
    intro _ hslash hnl
    have ha : a ≠ '\n' := fun h => hnl (by simp [h])
    cases n with
    | nil =>
      simp only [List.cons_append, List.nil_append]
      rw [lazyPlus_cons k a _ ha, hk]
    | cons b n =>
      have hb : b ≠ '/' := fun h => hslash (by simp [h])
      have hr := ih (by simp) (fun h => hslash (List.mem_cons_of_mem _ h))
        (fun h => hnl (List.mem_cons_of_mem _ h))
      simp only [List.cons_append] at hr ⊢
      rw [lazyPlus_cons k a _ ha, hfail b _ hb, hr]

/-- The patterns `pre(.+?)/.+` on a text `pre n / c ...`: the first capture
group is `n`. -/
theorem findSubmatch_segment (pre n : List Char) (c : Char) (cs : List Char) (hc : c ≠ '\n')
    (hn : n ≠ []) (hslash : '/' ∉ n) (hnl : '\n' ∉ n) :
    ∃ whole, findSubmatch
      (pre.map RegexItem.lit ++
        [RegexItem.anyPlus false true, RegexItem.lit '/', RegexItem.anyPlus true false])
      (pre ++ (n ++ '/' :: c :: cs)) = [whole, n] := by
  obtain ⟨w, hw⟩ := greedyPlus_some (matchHere []) ([], []) matchHere_nil cs c hc
  have hk : matchHere [RegexItem.lit '/', RegexItem.anyPlus true false] ('/' :: c :: cs)
      = some ('/' :: (w ++ []), []) := by
    rw [matchHere_lit_cons, if_pos rfl, matchHere_greedy, hw]
    rfl
  have hfail : ∀ (b : Char) (t : List Char), b ≠ '/' →
      matchHere [RegexItem.lit '/', RegexItem.anyPlus true false] (b :: t) = none := by
    intro b t hb
    rw [matchHere_lit_cons, if_neg hb]
  have hlazy := lazyPlus_segment _ (c :: cs) _ hk hfail n hn hslash hnl
  refine ⟨pre ++ (n ++ '/' :: (w ++ [])), ?_⟩
  apply findSubmatch_of_matchHere
  rw [matchHere_lits, matchHere_lazy, hlazy]
  rfl

/-- The greedy repetition consumes a whole text without newlines when the
continuation matches the empty text. -/
theorem greedyPlus_all (k : List Char → Option MatchResult) (r0 : MatchResult)
    (hk : k [] = some r0) :
    ∀ R : List Char, R ≠ [] → '\n' ∉ R → greedyPlus k R = some (R, r0) := by
  intro R
  induction R with
  | nil => intro h; exact absurd rfl h
  | cons c R ih =>
    intro _ hnl
    have hc : c ≠ '\n' := fun h => hnl (by simp [h])
    rw [greedyPlus_cons k c R hc]
    cases R with
    | nil =>
      have : greedyPlus k [] = none := rfl
      rw [this, hk]
    | cons d R =>
      rw [ih (by simp) (fun h => hnl (List.mem_cons_of_mem _ h))]

/-- The greedy repetition fails on a text without colon when the continuation
matches only texts that begin with a colon. -/
theorem greedyPlus_no_colon (k : List Char → Option MatchResult)
    (hfail : ∀ t : List Char, t.head? ≠ some ':' → k t = none) :
    ∀ R : List Char, ':' ∉ R → greedyPlus k R = none := by
  intro R
  induction R with
  | nil => intro _; rfl
  | cons c R ih =>
    intro hcolon
    have hR : ':' ∉ R := fun h => hcolon (List.mem_cons_of_mem _ h)
    have hkR : k R = none := by
      apply hfail
      cases R with
      | nil => simp
      | cons d R =>
        have hd : d ≠ ':' := fun h => hR (by simp [h])
        simpa using hd
    by_cases hc : c = '\n'
    · simp only [greedyPlus, hc, if_true]
    · rw [greedyPlus_cons k c R hc, ih hR, hkR]

/-- The greedy repetition followed by a continuation that needs a colon
backtracks to the last colon: on `P:R`, with `P` non-empty and free of
newlines and `R` free of colons, it consumes `P`. -/
theorem greedyPlus_last_colon (k : List Char → Option MatchResult) (R : List Char)
    (r : MatchResult) (hk : k (':' :: R) = some r)
    (hfail : ∀ t : List Char, t.head? ≠ some ':' → k t = none) (hcolon : ':' ∉ R) :
    ∀ P : List Char, P ≠ [] → '\n' ∉ P → greedyPlus k (P ++ ':' :: R) = some (P, r) := by
  intro P
  induction P with
  | nil => intro h; exact absurd rfl h
  | cons c P ih =>
    intro _ hnl
    have hc : c ≠ '\n' := fun h => hnl (by simp [h])
    simp only [List.cons_append]
    rw [greedyPlus_cons k c _ hc]
    cases P with
    | nil =>
      simp only [List.nil_append]
      by_cases hnlc : (':' : Char) = '\n'
      · exact absurd hnlc (by decide)
      · rw [greedyPlus_cons k ':' R hnlc, greedyPlus_no_colon k hfail R hcolon,
          hfail R (by
            cases R with
            | nil => simp
            | cons d R =>
              have hd : d ≠ ':' := fun h => hcolon (by simp [h])
              simpa using hd), hk]
    | cons d P =>
      rw [ih (by simp) (fun h => hnl (List.mem_cons_of_mem _ h))]

/-- The pattern `pre.+:(.+)` on a text `pre P : R`: the first capture group is
`R`. -/
theorem findSubmatch_last_colon (pre P R : List Char) (hP : P ≠ []) (hR : R ≠ [])
    (hcolon : ':' ∉ R) (hnlP : '\n' ∉ P) (hnlR : '\n' ∉ R) :
    ∃ whole, findSubmatch
      (pre.map RegexItem.lit ++
        [RegexItem.anyPlus true false, RegexItem.lit ':', RegexItem.anyPlus true true])
      (pre ++ (P ++ ':' :: R)) = [whole, R] := by
  have hk : matchHere [RegexItem.lit ':', RegexItem.anyPlus true true] (':' :: R)
      = some (':' :: (R ++ []), [R]) := by
    rw [matchHere_lit_cons, if_pos rfl, matchHere_greedy,
      greedyPlus_all (matchHere []) ([], []) (matchHere_nil []) R hR hnlR]
    rfl
  have hfail : ∀ t : List Char, t.head? ≠ some ':' →
      matchHere [RegexItem.lit ':', RegexItem.anyPlus true true] t = none := by
    intro t ht
    cases t with
    | nil => rfl
    | cons b t =>
      have hb : b ≠ ':' := fun h => ht (by simp [h])
      rw [matchHere_lit_cons, if_neg hb]
  have hgreedy := greedyPlus_last_colon _ R _ hk hfail hcolon P hP hnlP
  refine ⟨pre ++ (P ++ ':' :: (R ++ [])), ?_⟩
  apply findSubmatch_of_matchHere
  rw [matchHere_lits, matchHere_greedy, hgreedy]
  rfl

/-! ## Short names: proofs -/

theorem data_ne_nil_of_ne_empty (s : String) (h : s ≠ "") : s.data ≠ [] := by
  intro hd
  apply h
  cases s
  simp only at hd
  subst hd
  rfl

theorem data_eq_cons_of_head (t : String) (ht : t ≠ "") (hnl : t.data.head? ≠ some '\n') :
    ∃ c cs, t.data = c :: cs ∧ c ≠ '\n' := by
  have hne := data_ne_nil_of_ne_empty t ht
  cases hd : t.data with
  | nil => exact absurd hd hne
  | cons c cs =>
    refine ⟨c, cs, rfl, ?_⟩
    intro hc
    rw [hd, hc] at hnl
    exact hnl rfl

/-- The first capture group of a pattern `pre(.+?)/.+` on `pre n / id`. -/
theorem FindStringSubmatch_segment (pre n id : String) (hn : n ≠ "") (hslash : '/' ∉ n.data)
    (hnl : '\n' ∉ n.data) (hid : id ≠ "") (hidnl : id.data.head? ≠ some '\n') :
    ∃ whole, FindStringSubmatch
      (pre.data.map RegexItem.lit ++
        [RegexItem.anyPlus false true, RegexItem.lit '/', RegexItem.anyPlus true false])
      (pre ++ n ++ "/" ++ id) = [whole, n] := by
  obtain ⟨c, cs, hcs, hc⟩ := data_eq_cons_of_head id hid hidnl
  obtain ⟨whole, h⟩ := findSubmatch_segment pre.data n.data c cs hc
    (data_ne_nil_of_ne_empty n hn) hslash hnl
  have hdata : (pre ++ n ++ "/" ++ id).data = pre.data ++ (n.data ++ '/' :: c :: cs) := by
    have hsl : ("/" : String).data = ['/'] := rfl
    simp only [String.data_append, hcs, hsl, List.append_assoc, List.singleton_append]
  refine ⟨String.mk whole, ?_⟩
  unfold FindStringSubmatch
  rw [hdata, h]
  rfl

/-- The name passed to `DescribeLoadBalancers` for `app/s/t`. -/
theorem elbSimpleName_segment (s t : String) (hs : s ≠ "") (hslash : '/' ∉ s.data)
    (hnl : '\n' ∉ s.data) (ht : t ≠ "") (htnl : t.data.head? ≠ some '\n') :
    elbSimpleName ("app/" ++ s ++ "/" ++ t) = s := by
  obtain ⟨whole, h⟩ := FindStringSubmatch_segment "app/" s t hs hslash hnl ht htnl
  have hre : MustCompile "app/(.+?)/.+" = ("app/" : String).data.map RegexItem.lit ++
      [RegexItem.anyPlus false true, RegexItem.lit '/', RegexItem.anyPlus true false] := by
    decide
  simp only [elbSimpleName, hre, h]
  rfl

/-- The name used in the keys for `targetgroup/n/id`. -/
theorem tgMetricName_segment (n id : String) (hn : n ≠ "") (hslash : '/' ∉ n.data)
    (hnl : '\n' ∉ n.data) (hid : id ≠ "") (hidnl : id.data.head? ≠ some '\n') :
    tgMetricName ("targetgroup/" ++ n ++ "/" ++ id) = n := by
  obtain ⟨whole, h⟩ := FindStringSubmatch_segment "targetgroup/" n id hn hslash hnl hid hidnl
  have hre : MustCompile "targetgroup/(.+?)/.+"
      = ("targetgroup/" : String).data.map RegexItem.lit ++
        [RegexItem.anyPlus false true, RegexItem.lit '/', RegexItem.anyPlus true false] := by
    decide
  simp only [tgMetricName, hre, h]
  rfl

/-- Without a match of `targetgroup/(.+?)/.+` the name used in the keys is the
target group name itself. -/
theorem tgMetricName_of_no_match (t : String)
    (h : FindStringSubmatch (MustCompile "targetgroup/(.+?)/.+") t = []) :
    tgMetricName t = t := by
  simp [tgMetricName, h, stringsReplace]

/-- The first capture group of `arn:aws:elasticloadbalancing:.+:(.+)` on
`arn:aws:elasticloadbalancing:P:R`. -/
theorem FindStringSubmatch_arn (P R : String) (hP : P ≠ "") (hR : R ≠ "")
    (hcolon : ':' ∉ R.data) (hnlP : '\n' ∉ P.data) (hnlR : '\n' ∉ R.data) :
    ∃ whole, FindStringSubmatch (MustCompile "arn:aws:elasticloadbalancing:.+:(.+)")
      ("arn:aws:elasticloadbalancing:" ++ P ++ ":" ++ R) = [whole, R] := by
  obtain ⟨whole, h⟩ := findSubmatch_last_colon ("arn:aws:elasticloadbalancing:" : String).data
    P.data R.data (data_ne_nil_of_ne_empty P hP) (data_ne_nil_of_ne_empty R hR) hcolon hnlP hnlR
  have hre : MustCompile "arn:aws:elasticloadbalancing:.+:(.+)"
      = ("arn:aws:elasticloadbalancing:" : String).data.map RegexItem.lit ++
        [RegexItem.anyPlus true false, RegexItem.lit ':', RegexItem.anyPlus true true] := by
    decide
  have hdata : ("arn:aws:elasticloadbalancing:" ++ P ++ ":" ++ R).data
      = ("arn:aws:elasticloadbalancing:" : String).data ++ (P.data ++ ':' :: R.data) := by
    have hsl : (":" : String).data = [':'] := rfl
    simp only [String.data_append, hsl, List.append_assoc, List.singleton_append]
  refine ⟨String.mk whole, ?_⟩
  unfold FindStringSubmatch
  rw [hre, hdata, h]
  rfl

/-- Replacing the wildcard at the end of a group key. -/
theorem replaceChars_hash (new : List Char) (n : Nat) :
    ∀ pre : List Char, '#' ∉ pre →
      replaceChars ['#'] new (n + 1) 0 (pre ++ ['#']) = pre ++ new := by
  intro pre
  induction pre with
  | nil => intro _; simp [replaceChars]
  | cons c pre ih =>
    intro hpre
    have hc : c ≠ '#' := fun h => hpre (by simp [h])
    have hc2 : ¬ ('#' = c) := fun h => hc h.symm
    have h := ih (fun h => hpre (List.mem_cons_of_mem _ h))
    simp [replaceChars, hc2, h]

theorem stringsReplace_hash (pre short : String) (hpre : '#' ∉ pre.data) :
    stringsReplace (pre ++ "#") "#" short (-1) = pre ++ short := by
  unfold stringsReplace
  by_cases hs : ("#" : String) = short
  · simp [hs]
  · have hdata : (pre ++ "#").data = pre.data ++ ['#'] := by
      simp only [String.data_append]
    have hold : ("#" : String).data = ['#'] := rfl
    simp only [hs, false_or, Int.reduceNeg, Int.neg_eq_zero, one_ne_zero, if_false, hold,
      List.cons_ne_self, hdata]
    simp [replaceChars_hash, hpre]
    rfl

/-- Every metric of a per-target-group group of the catalogue is queried by a
loop over the target groups, under the group key without its wildcard. -/
theorem graphdef_tg_covered :
    ∀ Gg ∈ graphdef, Gg.1.data.getLast? = some '#' → ∀ met ∈ Gg.2.Metrics,
      ∃ e ∈ tgTable, e.2.1 = met.Name ∧ e.1 ++ "#" = Gg.1 ∧ '#' ∉ e.1.data := by
  decide

/-! ## Keys of the queries scoped to a target group -/

/-- A text is split in one way only at its last dot. -/
theorem split_last_dot (m1 m2 : List Char) (h1 : '.' ∉ m1) (h2 : '.' ∉ m2) :
    ∀ a b : List Char, a ++ '.' :: m1 = b ++ '.' :: m2 → a = b ∧ m1 = m2 := by
  intro a
  induction a with
  | nil =>
    intro b h
    cases b with
    | nil =>
      simp only [List.nil_append, List.cons.injEq, true_and] at h
      exact ⟨rfl, h⟩
    | cons y b =>
      simp only [List.nil_append, List.cons_append, List.cons.injEq] at h
      exact absurd (by rw [h.2]; simp) h1
  | cons x a ih =>
    intro b h
    cases b with
    | nil =>
      simp only [List.nil_append, List.cons_append, List.cons.injEq] at h
      exact absurd (by rw [← h.2]; simp) h2
    | cons y b =>
      simp only [List.cons_append, List.cons.injEq] at h
      obtain ⟨hab, hm⟩ := ih b h.2
      exact ⟨by rw [h.1, hab], hm⟩

theorem string_eq_of_data (a b : String) (h : a.data = b.data) : a = b := by
  cases a
  cases b
  simp only at h
  rw [h]

/-- Two queries scoped to target groups write to the same key only for the
same short name, metric and policy. -/
theorem tgQueries_key_eq (p : ALBPlugin) (t1 t2 : String) (q1 q2 : Query)
    (hq1 : q1 ∈ tgQueries p t1) (hq2 : q2 ∈ tgQueries p t2) (hkey : q1.key = q2.key) :
    tgMetricName t1 = tgMetricName t2 ∧ q1.metricName = q2.metricName ∧ q1.sTyp = q2.sTyp := by
  rw [tgQueries_eq_map] at hq1 hq2
  obtain ⟨e1, he1, rfl⟩ := List.mem_map.mp hq1
  obtain ⟨e2, he2, rfl⟩ := List.mem_map.mp hq2
  have hdot : ∀ e ∈ tgTable, '.' ∉ e.2.1.data := by decide
  have htab : ∀ a ∈ tgTable, ∀ b ∈ tgTable, a.2.1 = b.2.1 → a = b := by decide
  have hdata := congrArg String.data hkey
  have hd : (".": String).data = ['.'] := rfl
  simp only [String.data_append, hd, List.append_assoc, List.singleton_append] at hdata
  rw [← List.append_assoc, ← List.append_assoc] at hdata
  obtain ⟨hpre, hm⟩ := split_last_dot _ _ (hdot e1 he1) (hdot e2 he2) _ _ hdata
  have hname : e1.2.1 = e2.2.1 := string_eq_of_data _ _ hm
  have he : e1 = e2 := htab e1 he1 e2 he2 hname
  subst he
  refine ⟨string_eq_of_data _ _ (List.append_cancel_left hpre), rfl, rfl⟩

/-- With pairwise distinct short names, two queries of `FetchMetrics` with the
same key are the same query. -/
theorem fetchQueries_key_eq (p : ALBPlugin)
    (hshort : ∀ t1 ∈ p.Tgnames, ∀ t2 ∈ p.Tgnames, tgMetricName t1 = tgMetricName t2 → t1 = t2)
    (q1 q2 : Query) (hq1 : q1 ∈ fetchQueries p) (hq2 : q2 ∈ fetchQueries p)
    (hkey : q1.key = q2.key) : q1 = q2 := by
  rcases (mem_fetchQueries p q1).mp hq1 with h1 | ⟨t1, ht1, h1⟩
  · exact (lbQueries_key_unique p q1 h1 q2 hq2 hkey.symm).symm
  · rcases (mem_fetchQueries p q2).mp hq2 with h2 | ⟨t2, ht2, h2⟩
    · exact lbQueries_key_unique p q2 h2 q1 hq1 hkey
    · obtain ⟨hs, hm, hst⟩ := tgQueries_key_eq p t1 t2 q1 q2 h1 h2 hkey
      have ht : t1 = t2 := hshort t1 ht1 t2 ht2 hs
      subst ht
      have hd : q1.dimensions = q2.dimensions := by
        rw [tgQueries_eq_map] at h1 h2
        obtain ⟨e1, _, rfl⟩ := List.mem_map.mp h1
        obtain ⟨e2, _, rfl⟩ := List.mem_map.mp h2
        rfl
      cases q1
      cases q2
      simp only at hd hm hst hkey
      simp only [Query.mk.injEq]
      exact ⟨hd, hm, hst, hkey⟩


/-! ## Claims -/

/-- The telemetry service that answers every request with the data points
`dps`. -/
def cwConst (dps : List Datapoint) : CloudWatch Unit :=
  { Now := fun _ => 0
    Send := fun w _ => (Except.ok ⟨dps⟩, w) }

/-- A data point that carries the requested statistic only. -/
def pointFor (statistics : List String) (tv : Time × Float64) : Datapoint :=
  if statistics = ["Average"] then ⟨some tv.1, none, some tv.2⟩
  else ⟨some tv.1, some tv.2, none⟩

/-- The telemetry service that answers every request with the given timestamps
and values, as the requested statistic. -/
def cwPoints (pts : List (Time × Float64)) : CloudWatch Unit :=
  { Now := fun _ => 0
    Send := fun w input => (Except.ok ⟨pts.map (pointFor input.Statistics)⟩, w) }

/-- A plugin for the load balancer `app/my-lb/abc123`. -/
def albMyLb (tgnames : List String) : ALBPlugin :=
  { Region := "", AccessKeyID := "", SecretAccessKey := "", Lbname := "app/my-lb/abc123",
    Tgnames := tgnames, FetchDuration := 300 }

/-- C1 (as stated, refuted): for a response holding the single data point with
Sum 5 whose timestamp lies one nanosecond before the zero time,
`getLastPoint` returns 0 without error, which is the Sum of no returned
point; and for a response holding a single data point without Sum,
`getLastPoint` under the policy Sum does not return. -/
theorem getLastPoint_before_zero_time :
    (getLastPoint (cwConst [⟨some (-1), some 5, none⟩]) (albMyLb []) (ld (albMyLb []))
        "ProcessedBytes" statType.stSum () = Run.done (Except.ok 0, ()) ∧
      ∀ d ∈ [(⟨some (-1), some 5, none⟩ : Datapoint)], statField statType.stSum d ≠ some 0) ∧
    getLastPoint (cwConst [⟨some 60, none, some 5⟩]) (albMyLb []) (ld (albMyLb []))
        "ProcessedBytes" statType.stSum () = Run.panic nilDereference := by
  decide

/-- C1 (amended): for every list of data points returned by the telemetry
query that can be selected from (every point carries its timestamp, and every
point that is neither before the zero time nor before an earlier point carries
the requested statistic) and of which at least one point is not before the
zero time, and for each aggregation policy, `getLastPoint` returns without
error the Sum (resp. Average) field of a point `d` of maximal timestamp,
namely the last such point in response order: no point after `d` reaches its
timestamp. -/
theorem getLastPoint_latest {σ : Type} (cw : CloudWatch σ) (p : ALBPlugin)
    (dimensions : List Dimension) (metricName : String) (sTyp : statType) (w w1 : σ)
    (dps : List Datapoint)
    (hresp : cw.GetMetricStatistics w
      (getLastPointInput p (truncate (cw.Now w) minute) dimensions metricName sTyp)
        = (Except.ok ⟨dps⟩, w1))
    (hsel : selectable sTyp 0 dps)
    (hzero : ∃ x ∈ dps, ∃ t, x.Timestamp = some t ∧ 0 ≤ t) :
    ∃ pre d post t v, dps = pre ++ d :: post ∧ d.Timestamp = some t ∧
      statField sTyp d = some v ∧
      (∀ y ∈ pre, ∀ u, y.Timestamp = some u → u ≤ t) ∧
      (∀ y ∈ post, ∀ u, y.Timestamp = some u → u < t) ∧
      getLastPoint cw p dimensions metricName sTyp w = Run.done (Except.ok v, w1) := by
  obtain ⟨x, hx, tx, htx, hpos⟩ := hzero
  have hlen : dps.length ≠ 0 := by
    intro h
    rw [List.length_eq_zero.mp h] at hx
    cases hx
  rcases selectLoop_of_selectable sTyp 0 0 dps hsel with
    ⟨_, hbefore⟩ | ⟨pre, d, post, t, v, hsplit, hdt, hdv, _, hpre, hpost, hloop⟩
  · exact absurd (hbefore x hx tx htx) (not_lt.mpr hpos)
  · refine ⟨pre, d, post, t, v, hsplit, hdt, hdv, hpre, hpost, ?_⟩
    simp only [getLastPoint, hresp, selectResponse, hlen, if_false, hloop]

/-- C1, witness (scenario B): two points with timestamps 60 < 120 and Sum
values 100 and 150 give 150. -/
theorem getLastPoint_latest_witness :
    (∃ pre d post t v,
      [(⟨some 60, some 100, none⟩ : Datapoint), ⟨some 120, some 150, none⟩] = pre ++ d :: post ∧
      d.Timestamp = some t ∧ statField statType.stSum d = some v ∧
      (∀ y ∈ pre, ∀ u, y.Timestamp = some u → u ≤ t) ∧
      (∀ y ∈ post, ∀ u, y.Timestamp = some u → u < t) ∧
      getLastPoint (cwPoints [(60, 100), (120, 150)]) (albMyLb []) (ld (albMyLb []))
        "ProcessedBytes" statType.stSum () = Run.done (Except.ok v, ())) ∧
    getLastPoint (cwPoints [(60, 100), (120, 150)]) (albMyLb []) (ld (albMyLb []))
        "ProcessedBytes" statType.stSum () = Run.done (Except.ok 150, ()) :=
  ⟨getLastPoint_latest (cwPoints [(60, 100), (120, 150)]) (albMyLb []) (ld (albMyLb []))
      "ProcessedBytes" statType.stSum () ()
      [⟨some 60, some 100, none⟩, ⟨some 120, some 150, none⟩] rfl
      (selectable_of_all _ _ _ (by decide)) ⟨⟨some 60, some 100, none⟩, by decide, 60, rfl,
        by decide⟩,
    by decide⟩

/-- The telemetry service that answers its first request with one data point
and every later request with an error; the state counts the requests. -/
def cwOnce : CloudWatch Nat :=
  { Now := fun _ => 0
    Send := fun n input =>
      if n = 0 then (Except.ok ⟨[pointFor input.Statistics (60, 7)]⟩, n + 1)
      else (Except.error "Throttling", n + 1) }

/-- C2 (as stated, refuted): when the telemetry collaborator answers the
`ProcessedBytes` query with a data point that lacks the requested Sum,
`FetchMetrics` does not return a nil error: it does not return. -/
theorem FetchMetrics_panics_on_missing_statistic :
    (⟨⟨ld (albMyLb []), "ProcessedBytes", statType.stSum, "ProcessedBytes"⟩,
        Except.ok ⟨[⟨some 60, none, some 7⟩]⟩⟩ : Call)
      ∈ fetchCalls (cwConst [⟨some 60, none, some 7⟩]) (albMyLb []) () ∧
    FetchMetrics (cwConst [⟨some 60, none, some 7⟩]) (albMyLb []) ()
      = Run.panic nilDereference :=
  ⟨by decide, rfl⟩

/-- C2 (amended): for every key and every behaviour of the telemetry
collaborator in which the calls that `FetchMetrics` makes are well formed
(each returned point carries its timestamp, and the requested statistic
unless it is skipped by the selection), `FetchMetrics` returns, with a nil
error, and the key is absent from the returned map when every call that
`FetchMetrics` makes for that key (its metric and resource context) returns an
error or zero data points. -/
theorem FetchMetrics_absent_of_fails {σ : Type} (cw : CloudWatch σ) (p : ALBPlugin) (w : σ)
    (k : String) (hwf : ∀ c ∈ fetchCalls cw p w, c.wellFormed) :
    ∃ r, FetchMetrics cw p w = Run.done r ∧ r.1.2 = none ∧
      ((∀ c ∈ fetchCalls cw p w, c.query.key = k → c.fails) → r.1.1 k = none) := by
  obtain ⟨r, hr⟩ := FetchMetrics_total cw p w hwf
  obtain ⟨herr, hstat, _, _⟩ := FetchMetrics_done cw p w r hr
  refine ⟨r, hr, herr, fun h => ?_⟩
  rw [hstat, storeCalls_of_fails k _ Stat.empty h]
  rfl

/-- C2, witness: a collaborator that answers once and then throttles leaves
the keys of the later queries absent, here `RequestCount`. -/
theorem FetchMetrics_absent_of_fails_witness :
    ∃ r, FetchMetrics cwOnce (albMyLb ["targetgroup/my-tg/def456"]) 0 = Run.done r ∧
      r.1.2 = none ∧ r.1.1 "RequestCount" = none :=
  match FetchMetrics_absent_of_fails cwOnce (albMyLb ["targetgroup/my-tg/def456"]) 0
      "RequestCount"
      (fun c hc => Call.wellFormed_of_complete c
        ((by decide : ∀ c ∈ fetchCalls cwOnce (albMyLb ["targetgroup/my-tg/def456"]) 0,
          c.complete = true) c hc)) with
  | ⟨r, hr, herr, habs⟩ =>
    ⟨r, hr, herr, habs (by decide)⟩

/-- C3 (as stated, refuted): `ProcessedBytes` is a metric of the
load-balancer-level group `alb.bytes.processed`.  When its query returns the
single point of Sum 5 stamped one nanosecond before the zero time, the map
holds the key with value 0, not with the value 5 of the returned point; and
when its query returns a point but a later query of the cycle returns a point
without the requested statistic, `FetchMetrics` returns no map. -/
theorem FetchMetrics_lb_before_zero_time :
    (∃ g, ("alb.bytes.processed", g) ∈ graphdef ∧
      (⟨"ProcessedBytes", "Processed", false⟩ : Metrics) ∈ g.Metrics) ∧
    ((⟨⟨ld (albMyLb []), "ProcessedBytes", statType.stSum, "ProcessedBytes"⟩,
        Except.ok ⟨[⟨some (-1), some 5, some 5⟩]⟩⟩ : Call)
      ∈ fetchCalls (cwConst [⟨some (-1), some 5, some 5⟩]) (albMyLb []) () ∧
      ∃ r, FetchMetrics (cwConst [⟨some (-1), some 5, some 5⟩]) (albMyLb []) () = Run.done r ∧
        r.1.1 "ProcessedBytes" = some 0) ∧
    ((⟨⟨ld (albMyLb []), "ProcessedBytes", statType.stSum, "ProcessedBytes"⟩,
        Except.ok ⟨[⟨some 60, some 5, none⟩]⟩⟩ : Call)
      ∈ fetchCalls (cwConst [⟨some 60, some 5, none⟩]) (albMyLb []) () ∧
      FetchMetrics (cwConst [⟨some 60, some 5, none⟩]) (albMyLb []) ()
        = Run.panic nilDereference) :=
  ⟨⟨_, List.mem_cons_self _ _, List.mem_cons_self _ _⟩,
    ⟨by decide, _, rfl, by decide⟩, ⟨by decide, rfl⟩⟩

/-- C3 (amended): for every metric Name of a load-balancer-level group of
`graphdef` (a group whose key contains no `#`) and a plugin with a non-empty
load-balancer name, when the calls of the cycle are well formed: if the call
that `FetchMetrics` makes for that metric with the single LoadBalancer
dimension returns at least one data point, then `FetchMetrics` returns a map
that contains the bare metric name as a key; and if one of the returned points
is not before the zero time, its value is the value of a point `d` of
maximal timestamp (the last such point in response order). -/
theorem FetchMetrics_lb_level {σ : Type} (cw : CloudWatch σ) (p : ALBPlugin) (w : σ)
    (G : String) (g : Graphs) (met : Metrics)
    (hG : (G, g) ∈ graphdef) (hlevel : '#' ∉ G.data) (hmet : met ∈ g.Metrics)
    (hlb : p.Lbname ≠ "")
    (hwf : ∀ c ∈ fetchCalls cw p w, c.wellFormed)
    (hret : ∀ c ∈ fetchCalls cw p w, c.query.dimensions = ld p →
      c.query.metricName = met.Name → c.returnsPoints) :
    ∃ r, FetchMetrics cw p w = Run.done r ∧
      ∃ c ∈ fetchCalls cw p w, ∃ dps, c.query.dimensions = ld p ∧
        c.query.metricName = met.Name ∧ c.response = Except.ok ⟨dps⟩ ∧
        r.1.1 met.Name ≠ none ∧
        ((∃ x ∈ dps, ∃ t, x.Timestamp = some t ∧ 0 ≤ t) →
          ∃ pre d post t v, dps = pre ++ d :: post ∧ d.Timestamp = some t ∧
            statField c.query.sTyp d = some v ∧
            (∀ y ∈ pre, ∀ u, y.Timestamp = some u → u ≤ t) ∧
            (∀ y ∈ post, ∀ u, y.Timestamp = some u → u < t) ∧
            r.1.1 met.Name = some v) := by
  obtain ⟨r, hr⟩ := FetchMetrics_total cw p w hwf
  obtain ⟨_, hstat, hmap, _⟩ := FetchMetrics_done cw p w r hr
  have hmap := hmap hlb
  obtain ⟨sTyp, _, hmem⟩ := graphdef_lb_covered (G, g) hG hlevel met hmet
  have hq0 : (⟨ld p, met.Name, sTyp, met.Name⟩ : Query) ∈ lbQueries p := by
    rw [lbQueries_eq_map]
    exact List.mem_map.mpr ⟨(met.Name, sTyp), hmem, rfl⟩
  have hq0f : (⟨ld p, met.Name, sTyp, met.Name⟩ : Query)
      ∈ (fetchCalls cw p w).map Call.query := by
    rw [hmap]
    exact (mem_fetchQueries p _).mpr (Or.inl hq0)
  obtain ⟨c, hc, hcq⟩ := List.mem_map.mp hq0f
  have hdim : c.query.dimensions = ld p := by rw [hcq]
  have hname : c.query.metricName = met.Name := by rw [hcq]
  have hkey : c.query.key = met.Name := by rw [hcq]
  obtain ⟨out, hout, hne⟩ := hret c hc hdim hname
  obtain ⟨acc, hloop, hres⟩ := Call.result_of_returnsPoints c out.Datapoints hout hne (hwf c hc)
  refine ⟨r, hr, c, hc, out.Datapoints, hdim, hname, hout, ?_, ?_⟩
  · rw [hstat, ← hkey]
    exact storeCalls_of_value c acc.2 hres _ _ hc
  · intro hzero
    obtain ⟨x, hx, tx, htx, hpos⟩ := hzero
    have hsel : selectable c.query.sTyp 0 out.Datapoints := by
      have h := hwf c hc
      unfold Call.wellFormed at h
      rw [hout] at h
      exact h
    rcases selectLoop_of_selectable c.query.sTyp 0 0 out.Datapoints hsel with
      ⟨_, hbefore⟩ | ⟨pre, d, post, t, v, hsplit, hdt, hdv, _, hpre, hpost, hloop2⟩
    · exact absurd (hbefore x hx tx htx) (not_lt.mpr hpos)
    · refine ⟨pre, d, post, t, v, hsplit, hdt, hdv, hpre, hpost, ?_⟩
      rw [hloop2] at hloop
      simp only [Run.done.injEq] at hloop
      rw [← hloop] at hres
      rw [hstat]
      apply storeCalls_value
      · intro c2 hc2 hk2
        have hlbq : c.query ∈ lbQueries p := by rw [hcq]; exact hq0
        rw [lb_call_unique p _ hmap c c2 hc hc2 hlbq (by rw [hk2, hkey])]
        exact hres
      · exact Or.inl ⟨c, hc, hkey⟩

/-- C3, witness (scenario B): `ProcessedBytes` of the group
`alb.bytes.processed`, for the load balancer `app/my-lb/abc123`; its query
returns two points with timestamps 60 < 120 and Sum values 100 and 150. -/
theorem FetchMetrics_lb_level_witness :
    ∃ r, FetchMetrics (cwPoints [(60, 100), (120, 150)]) (albMyLb []) () = Run.done r ∧
      r.1.1 "ProcessedBytes" ≠ none ∧
      (∃ (pre : List Datapoint) (d : Datapoint) (post : List Datapoint) (t : Time) (v : Float64),
        [(⟨some 60, some 100, none⟩ : Datapoint), ⟨some 120, some 150, none⟩]
          = pre ++ d :: post ∧
        d.Timestamp = some t ∧
        (∀ y ∈ pre, ∀ u, y.Timestamp = some u → u ≤ t) ∧
        (∀ y ∈ post, ∀ u, y.Timestamp = some u → u < t) ∧
        r.1.1 "ProcessedBytes" = some v) ∧
      r.1.1 "ProcessedBytes" = some 150 := by
  have hcomplete : ∀ c ∈ fetchCalls (cwPoints [(60, 100), (120, 150)]) (albMyLb []) (),
      c.complete = true := by decide
  have hresponse : ∀ c ∈ fetchCalls (cwPoints [(60, 100), (120, 150)]) (albMyLb []) (),
      c.query.metricName = "ProcessedBytes" →
      c.response = Except.ok ⟨[⟨some 60, some 100, none⟩, ⟨some 120, some 150, none⟩]⟩ := by
    decide
  obtain ⟨r, hr, c, hc, dps, _, hname, hresp, hpres, hval⟩ :=
    FetchMetrics_lb_level (cwPoints [(60, 100), (120, 150)]) (albMyLb []) ()
      "alb.bytes.processed"
      { Label := "Processed Bytes", Unit := "bytes",
        Metrics := [⟨"ProcessedBytes", "Processed", false⟩] }
      ⟨"ProcessedBytes", "Processed", false⟩ (by decide) (by decide) (by decide) (by decide)
      (fun c hc => Call.wellFormed_of_complete c (hcomplete c hc))
      (fun c hc _ hn => ⟨_, hresponse c hc hn, by simp⟩)
  have hdps : dps = [⟨some 60, some 100, none⟩, ⟨some 120, some 150, none⟩] := by
    have h := hresponse c hc hname
    rw [hresp] at h
    simpa using h
  subst hdps
  obtain ⟨pre, d, post, t, v, h1, h2, _, h4, h5, h6⟩ :=
    hval ⟨⟨some 60, some 100, none⟩, by simp, 60, rfl, by decide⟩
  refine ⟨r, hr, hpres, ⟨pre, d, post, t, v, h1, h2, h4, h5, h6⟩, ?_⟩
  have hr2 : ∃ r2, FetchMetrics (cwPoints [(60, 100), (120, 150)]) (albMyLb []) ()
      = Run.done r2 ∧ r2.1.1 "ProcessedBytes" = some 150 := ⟨_, rfl, by decide⟩
  obtain ⟨r2, hr2, hv2⟩ := hr2
  rw [hr] at hr2
  simp only [Run.done.injEq] at hr2
  rw [hr2]
  exact hv2


/-- When the describe-sub-resources call returns zero target groups, `prepare`
leaves the plugin unchanged, unless the session cannot be established. -/
theorem prepare_of_no_groups (aws : ELBv2) (p p2 : ALBPlugin) (err : Option Error)
    (hzero : ∀ arn, aws.DescribeTargetGroups arn = Except.ok [])
    (hprep : prepare aws p = Run.done (p2, err)) :
    p2 = p ∧ err = none ∧ sessionMust aws.NewSession = Run.done () := by
  unfold prepare at hprep
  cases hs : sessionMust aws.NewSession with
  | panic msg => rw [hs] at hprep; cases hprep
  | done u =>
    rw [hs] at hprep
    simp only at hprep
    split at hprep
    · rw [hzero] at hprep
      simp only [Run.done.injEq, Prod.mk.injEq] at hprep
      exact ⟨hprep.1.symm, hprep.2.symm, rfl⟩
    · simp only [Run.done.injEq, Prod.mk.injEq] at hprep
      exact ⟨hprep.1.symm, hprep.2.symm, rfl⟩

/-- Every metric of a load-balancer-level loop is a metric of a
load-balancer-level group of the catalogue. -/
theorem lbTable_in_graphdef :
    ∀ e ∈ lbTable, ∃ Gg ∈ graphdef, '#' ∉ Gg.1.data ∧ ∃ met ∈ Gg.2.Metrics, met.Name = e.1 := by
  decide

/-- A text that begins with one of the per-sub-resource prefixes begins with
`a`. -/
theorem head_of_tg_prefix (pre k : String)
    (hpre : pre ∈ ["alb.host_count.", "alb.httpcode_count_per_group.",
      "alb.request_per_group.", "alb.response_per_group."])
    (hk : pre.data <+: k.data) : k.data.head? = some 'a' := by
  have hall : ∀ pre ∈ ["alb.host_count.", "alb.httpcode_count_per_group.",
      "alb.request_per_group.", "alb.response_per_group."],
      (pre : String).data.head? = some 'a' := by decide
  obtain ⟨rest, hrest⟩ := hk
  have h := hall pre hpre
  rw [← hrest]
  cases hd : pre.data with
  | nil => rw [hd] at h; cases h
  | cons x xs => rw [hd] at h; simpa using h


/-- A plugin for the load balancer `app/my-lb/abc123` with the target group
`targetgroup/a\nb/c`, whose name segment holds a newline. -/
def albNewline : ALBPlugin := albMyLb ["targetgroup/a\nb/c"]

/-- The telemetry service that answers every request with one data point
carrying the requested statistic, except the `TargetResponseTime` request
scoped to a target group, which it answers with a point without statistic. -/
def cwMalformedLast : CloudWatch Unit :=
  { Now := fun _ => 0
    Send := fun w input =>
      if input.MetricName = "TargetResponseTime" ∧ input.Dimensions.length = 2
      then (Except.ok ⟨[⟨some 60, none, none⟩]⟩, w)
      else (Except.ok ⟨[pointFor input.Statistics (60, 7)]⟩, w) }

/-- C4 (as stated, refuted): for the target group `targetgroup/a\nb/c`, of the
form `targetgroup/n/id` with name segment `a\nb`, and a `HealthyHostCount`
query that returns a point, the map does not contain the key made from the
name segment; the key it contains is made from the whole target group name.
And for the target group `targetgroup/my-tg/def456`, when the
`HealthyHostCount` query returns a point and a later query of the cycle
returns a point without the requested statistic, `FetchMetrics` returns no
map. -/
theorem FetchMetrics_tg_newline :
    ("targetgroup/a\nb/c" = "targetgroup/" ++ "a\nb" ++ "/" ++ "c" ∧
      ∃ r, FetchMetrics (cwPoints [(60, 7)]) albNewline () = Run.done r ∧
        r.1.1 ("alb.host_count." ++ "a\nb" ++ "." ++ "HealthyHostCount") = none ∧
        r.1.1 ("alb.host_count." ++ "targetgroup/a\nb/c" ++ "." ++ "HealthyHostCount")
          = some 7) ∧
    ((⟨⟨td (albMyLb ["targetgroup/my-tg/def456"]) "targetgroup/my-tg/def456",
          "HealthyHostCount", statType.stAve, "alb.host_count.my-tg.HealthyHostCount"⟩,
        Except.ok ⟨[⟨some 60, none, some 7⟩]⟩⟩ : Call)
      ∈ fetchCalls cwMalformedLast (albMyLb ["targetgroup/my-tg/def456"]) () ∧
      FetchMetrics cwMalformedLast (albMyLb ["targetgroup/my-tg/def456"]) ()
        = Run.panic nilDereference) :=
  ⟨⟨by decide, _, rfl, by decide, by decide⟩, ⟨by decide, rfl⟩⟩

/-- C4 (amended): for every sub-resource name `t` in `Tgnames` (with a
non-empty load-balancer name) and every metric Name `m` of a per-sub-resource
group of `graphdef` with key `G` (a key ending in `#`), when the calls of the
cycle are well formed: if the call that `FetchMetrics` makes for `m` with the
dimensions LoadBalancer, TargetGroup = `t` returns at least one point, then
`FetchMetrics` returns a map that contains the key obtained from `G` by
replacing `#` with the short name of `t`, followed by `.` and `m`, the key of
that call.  The short name of `t` is the name segment `n` when `t` is
`targetgroup/n/id` with `n` non-empty and free of `/` and newlines and `id`
non-empty and not beginning with a newline, and `t` itself when the pattern
`targetgroup/(.+?)/.+` has no match in `t`. -/
theorem FetchMetrics_tg_level {σ : Type} (cw : CloudWatch σ) (p : ALBPlugin) (w : σ)
    (t G : String) (g : Graphs) (met : Metrics)
    (hlb : p.Lbname ≠ "") (ht : t ∈ p.Tgnames) (hG : (G, g) ∈ graphdef)
    (hsub : G.data.getLast? = some '#') (hmet : met ∈ g.Metrics)
    (hwf : ∀ c ∈ fetchCalls cw p w, c.wellFormed)
    (hret : ∀ c ∈ fetchCalls cw p w, c.query.dimensions = td p t →
      c.query.metricName = met.Name → c.returnsPoints) :
    (∃ r, FetchMetrics cw p w = Run.done r ∧
      (∃ c ∈ fetchCalls cw p w, c.query.dimensions = td p t ∧
        c.query.metricName = met.Name ∧
        c.query.key = stringsReplace G "#" (tgMetricName t) (-1) ++ "." ++ met.Name) ∧
      r.1.1 (stringsReplace G "#" (tgMetricName t) (-1) ++ "." ++ met.Name) ≠ none) ∧
    (∀ n id : String, t = "targetgroup/" ++ n ++ "/" ++ id → n ≠ "" → '/' ∉ n.data →
      '\n' ∉ n.data → id ≠ "" → id.data.head? ≠ some '\n' → tgMetricName t = n) ∧
    (FindStringSubmatch (MustCompile "targetgroup/(.+?)/.+") t = [] → tgMetricName t = t) := by
  refine ⟨?_, ?_, tgMetricName_of_no_match t⟩
  · obtain ⟨r, hr⟩ := FetchMetrics_total cw p w hwf
    obtain ⟨_, hstat, hmap, _⟩ := FetchMetrics_done cw p w r hr
    have hmap := hmap hlb
    obtain ⟨e, he, hname, hkey, hhash⟩ := graphdef_tg_covered (G, g) hG hsub met hmet
    simp only at hkey hname
    have hq : (⟨td p t, met.Name, e.2.2,
        stringsReplace G "#" (tgMetricName t) (-1) ++ "." ++ met.Name⟩ : Query)
        ∈ fetchQueries p := by
      rw [mem_fetchQueries]
      right
      refine ⟨t, ht, ?_⟩
      rw [tgQueries_eq_map]
      refine List.mem_map.mpr ⟨e, he, ?_⟩
      rw [← hkey, stringsReplace_hash e.1 _ hhash, hname]
    rw [← hmap] at hq
    obtain ⟨c, hc, hcq⟩ := List.mem_map.mp hq
    have hdim : c.query.dimensions = td p t := by rw [hcq]
    have hcname : c.query.metricName = met.Name := by rw [hcq]
    have hckey : c.query.key
        = stringsReplace G "#" (tgMetricName t) (-1) ++ "." ++ met.Name := by rw [hcq]
    obtain ⟨out, hout, hne⟩ := hret c hc hdim hcname
    obtain ⟨acc, _, hres⟩ :=
      Call.result_of_returnsPoints c out.Datapoints hout hne (hwf c hc)
    refine ⟨r, hr, ⟨c, hc, hdim, hcname, hckey⟩, ?_⟩
    rw [hstat, ← hckey]
    exact storeCalls_of_value c acc.2 hres _ _ hc
  · intro n id hform hn hslash hnl hid hidnl
    rw [hform]
    exact tgMetricName_segment n id hn hslash hnl hid hidnl

/-- C4, witness (scenario A): the target group `targetgroup/my-tg/def456` and
the metric `HealthyHostCount` of the group `alb.host_count.#`, whose query
returns a point with Average 7. -/
theorem FetchMetrics_tg_level_witness :
    (∃ r, FetchMetrics (cwPoints [(60, 7)]) (albMyLb ["targetgroup/my-tg/def456"]) ()
        = Run.done r ∧
      (∃ c ∈ fetchCalls (cwPoints [(60, 7)]) (albMyLb ["targetgroup/my-tg/def456"]) (),
        c.query.dimensions
          = td (albMyLb ["targetgroup/my-tg/def456"]) "targetgroup/my-tg/def456" ∧
        c.query.metricName = "HealthyHostCount" ∧
        c.query.key
          = stringsReplace "alb.host_count.#" "#" (tgMetricName "targetgroup/my-tg/def456") (-1)
            ++ "." ++ "HealthyHostCount") ∧
      r.1.1 (stringsReplace "alb.host_count.#" "#" (tgMetricName "targetgroup/my-tg/def456") (-1)
          ++ "." ++ "HealthyHostCount") ≠ none) ∧
    tgMetricName "targetgroup/my-tg/def456" = "my-tg" ∧
    ∃ r, FetchMetrics (cwPoints [(60, 7)]) (albMyLb ["targetgroup/my-tg/def456"]) ()
        = Run.done r ∧
      r.1.1 "alb.host_count.my-tg.HealthyHostCount" = some 7 :=
  have hcomplete : ∀ c ∈ fetchCalls (cwPoints [(60, 7)])
      (albMyLb ["targetgroup/my-tg/def456"]) (), c.complete = true := by decide
  have hresponse : ∀ c ∈ fetchCalls (cwPoints [(60, 7)])
      (albMyLb ["targetgroup/my-tg/def456"]) (),
      c.query.metricName = "HealthyHostCount" →
      c.response = Except.ok ⟨[⟨some 60, none, some 7⟩]⟩ := by decide
  have h := FetchMetrics_tg_level (cwPoints [(60, 7)]) (albMyLb ["targetgroup/my-tg/def456"]) ()
    "targetgroup/my-tg/def456" "alb.host_count.#"
    { Label := "Host Count", Unit := "float",
      Metrics := [⟨"HealthyHostCount", "Healthy", false⟩,
                  ⟨"UnHealthyHostCount", "UnHealthy", false⟩] }
    ⟨"HealthyHostCount", "Healthy", false⟩ (by decide) (by decide) (by decide) (by decide)
    (by decide)
    (fun c hc => Call.wellFormed_of_complete c (hcomplete c hc))
    (fun c hc _ hn => ⟨_, hresponse c hc hn, by simp⟩)
  ⟨h.1, h.2.1 "my-tg" "def456" (by decide) (by decide) (by decide) (by decide) (by decide)
    (by decide), _, rfl, by decide⟩


/-- C9 (as stated, refuted): the identifier `app/a\nb/c` has the form `app/s/t`
with `s` non-empty and free of `/` and `t` non-empty, and the name passed to
the describe-load-balancer call is the raw identifier, not `s`. -/
theorem elbSimpleName_newline :
    "app/a\nb/c" = "app/" ++ "a\nb" ++ "/" ++ "c" ∧ "a\nb" ≠ "" ∧ '/' ∉ "a\nb".data ∧
    "c" ≠ "" ∧ elbSimpleName "app/a\nb/c" = "app/a\nb/c" ∧
    elbSimpleName "app/a\nb/c" ≠ "a\nb" := by
  decide

/-- C9 (amended): `prepare` passes `elbSimpleName p.Lbname` to the
describe-load-balancer call.  For every identifier `app/s/t` with `s`
non-empty and free of `/` and of newlines, and `t` non-empty and not beginning
with a newline, that name is `s`; for every identifier in which the pattern
`app/(.+?)/.+` has no match it is the raw identifier unchanged. -/
theorem elbSimpleName_spec (s t lb : String) :
    (s ≠ "" → '/' ∉ s.data → '\n' ∉ s.data → t ≠ "" → t.data.head? ≠ some '\n' →
      elbSimpleName ("app/" ++ s ++ "/" ++ t) = s) ∧
    (FindStringSubmatch (MustCompile "app/(.+?)/.+") lb = [] → elbSimpleName lb = lb) := by
  refine ⟨elbSimpleName_segment s t, fun h => ?_⟩
  simp [elbSimpleName, h]

/-- C9, witness: `app/my-lb/abc123` gives `my-lb`, and `my-lb`, in which the
pattern has no match, is passed unchanged. -/
theorem elbSimpleName_spec_witness :
    elbSimpleName ("app/" ++ "my-lb" ++ "/" ++ "abc123") = "my-lb" ∧
      elbSimpleName "my-lb" = "my-lb" :=
  ⟨(elbSimpleName_spec "my-lb" "abc123" "my-lb").1 (by decide) (by decide) (by decide)
      (by decide) (by decide),
    (elbSimpleName_spec "my-lb" "abc123" "my-lb").2 (by decide)⟩

/-- A resource directory in which the load balancer is found and has the
given target groups. -/
def awsWith (arns : List String) : ELBv2 :=
  { NewSession := Except.ok ()
    DescribeLoadBalancers := fun _ =>
      Except.ok [⟨"arn:aws:elasticloadbalancing:region:account:loadbalancer/app/my-lb/abc123"⟩]
    DescribeTargetGroups := fun _ => Except.ok (arns.map TargetGroup.mk) }

/-- C10: when exactly one load balancer matches and the describe-sub-resources
call returns the identifier `arn:aws:elasticloadbalancing:P:R`, with `P`
non-empty, `R` non-empty and free of `:`, and no newline in either, the first
capture group of the pattern is `R`, and `R` is the name that `prepare` stores
for the sub-resource (after the initial empty entry of the list). -/
theorem prepare_derives_name (aws : ELBv2) (p : ALBPlugin) (lb : LoadBalancer) (P R : String)
    (hP : P ≠ "") (hR : R ≠ "") (hcolon : ':' ∉ R.data) (hnlP : '\n' ∉ P.data)
    (hnlR : '\n' ∉ R.data) (hsess : aws.NewSession = Except.ok ())
    (hlbs : aws.DescribeLoadBalancers [elbSimpleName p.Lbname] = Except.ok [lb])
    (htgs : aws.DescribeTargetGroups lb.LoadBalancerArn
      = Except.ok [⟨"arn:aws:elasticloadbalancing:" ++ P ++ ":" ++ R⟩]) :
    (FindStringSubmatch (MustCompile "arn:aws:elasticloadbalancing:.+:(.+)")
      ("arn:aws:elasticloadbalancing:" ++ P ++ ":" ++ R)).get? 1 = some R ∧
    prepare aws p = Run.done ({ p with Tgnames := ["", R] }, none) := by
  obtain ⟨whole, h⟩ := FindStringSubmatch_arn P R hP hR hcolon hnlP hnlR
  refine ⟨by rw [h]; rfl, ?_⟩
  simp [prepare, hsess, sessionMust, hlbs, htgs, appendTgnames, h]

/-- C10, witness (scenario A): the identifier
`arn:aws:elasticloadbalancing:region:account:targetgroup/my-tg/def456`. -/
theorem prepare_derives_name_witness :
    (FindStringSubmatch (MustCompile "arn:aws:elasticloadbalancing:.+:(.+)")
      ("arn:aws:elasticloadbalancing:" ++ "region:account" ++ ":" ++ "targetgroup/my-tg/def456")
      ).get? 1 = some "targetgroup/my-tg/def456" ∧
    prepare
      (awsWith ["arn:aws:elasticloadbalancing:" ++ "region:account" ++ ":"
        ++ "targetgroup/my-tg/def456"])
      (albMyLb [])
      = Run.done ({ albMyLb [] with Tgnames := ["", "targetgroup/my-tg/def456"] }, none) :=
  prepare_derives_name
    (awsWith ["arn:aws:elasticloadbalancing:" ++ "region:account" ++ ":"
      ++ "targetgroup/my-tg/def456"])
    (albMyLb [])
    ⟨"arn:aws:elasticloadbalancing:region:account:loadbalancer/app/my-lb/abc123"⟩
    "region:account" "targetgroup/my-tg/def456" (by decide) (by decide) (by decide) (by decide)
    (by decide) rfl rfl rfl

/-- C6 (as stated, refuted): with the `-tgname` option left empty and zero
discovered target groups, when the telemetry collaborator answers the
`ProcessedBytes` query with a data point that lacks the requested Sum,
`FetchMetrics` does not return a nil error: the collection cycle of `Do` does
not return. -/
theorem Do_panics_on_missing_statistic :
    ({ lbname := "app/my-lb/abc123" } : Flags).tgname = "" ∧
    prepare (awsWith []) (DoPlugin { lbname := "app/my-lb/abc123" } none)
      = Run.done (DoPlugin { lbname := "app/my-lb/abc123" } none, none) ∧
    FetchMetrics (cwConst [⟨some 60, none, some 9⟩])
      (DoPlugin { lbname := "app/my-lb/abc123" } none) () = Run.panic nilDereference ∧
    Do (awsWith []) (cwConst [⟨some 60, none, some 9⟩]) { lbname := "app/my-lb/abc123" } none ()
      = Run.panic nilDereference :=
  ⟨rfl, by decide, rfl, rfl⟩

/-- C6 (amended): when no explicit sub-resource names are supplied (the
`-tgname` option is left at its default empty string, from which `Do` builds
`Tgnames`) and the describe-sub-resources call returns zero target groups,
`FetchMetrics` is called on a plugin whose `Tgnames` holds the empty name
only; for every behaviour of the telemetry collaborator in which the calls of
the cycle are well formed, it returns, with a nil error, a map that contains
only load-balancer-level keys (bare names of metrics of the groups of
`graphdef` without `#`): no key beginning with `alb.host_count.`,
`alb.httpcode_count_per_group.`, `alb.request_per_group.` or
`alb.response_per_group.` is present. -/
theorem Do_only_lb_keys {σ : Type} (aws : ELBv2) (cw : CloudWatch σ) (opt : Flags)
    (metaRegion : Option String) (w : σ) (p2 : ALBPlugin) (err : Option Error)
    (htg : opt.tgname = "")
    (hzero : ∀ arn, aws.DescribeTargetGroups arn = Except.ok [])
    (hprep : prepare aws (DoPlugin opt metaRegion) = Run.done (p2, err))
    (hwf : ∀ c ∈ fetchCalls cw p2 w, c.wellFormed) :
    p2.Tgnames = [""] ∧
    ∃ r, FetchMetrics cw p2 w = Run.done r ∧ Do aws cw opt metaRegion w = Run.done r ∧
      r.1.2 = none ∧
      (∀ k, r.1.1 k ≠ none →
        ∃ Gg ∈ graphdef, '#' ∉ Gg.1.data ∧ ∃ met ∈ Gg.2.Metrics, met.Name = k) ∧
      (∀ pre ∈ ["alb.host_count.", "alb.httpcode_count_per_group.",
          "alb.request_per_group.", "alb.response_per_group."],
        ∀ k : String, pre.data <+: k.data → r.1.1 k = none) := by
  obtain ⟨hp2, herr, hsess⟩ := prepare_of_no_groups aws _ p2 err hzero hprep
  have htgn : p2.Tgnames = [""] := by
    rw [hp2]
    simp only [DoPlugin, htg]
    decide
  obtain ⟨r, hr⟩ := FetchMetrics_total cw p2 w hwf
  obtain ⟨hnil, hstat, _, _⟩ := FetchMetrics_done cw p2 w r hr
  have hdo : Do aws cw opt metaRegion w = Run.done r := by
    simp only [Do, hsess, hprep, herr]
    exact hr
  have hkeys : ∀ k, r.1.1 k ≠ none → ∃ e ∈ lbTable, e.1 = k := by
    intro k hk
    rw [hstat] at hk
    obtain ⟨c, hc, hck, hnf⟩ := storeCalls_origin k _ hk
    have hq := fetchCalls_query_mem cw p2 w c hc
    rcases (mem_fetchQueries p2 c.query).mp hq with h | ⟨t, ht, h⟩
    · rw [lbQueries_eq_map] at h
      obtain ⟨e, he, heq⟩ := List.mem_map.mp h
      exact ⟨e, he, by rw [← hck, ← heq]⟩
    · rw [htgn] at ht
      simp only [List.mem_singleton] at ht
      subst ht
      exact absurd (fetchCalls_empty_name_fails cw p2 w c hc h) hnf
  refine ⟨htgn, r, hr, hdo, hnil, ?_, ?_⟩
  · intro k hk
    obtain ⟨e, he, hek⟩ := hkeys k hk
    rw [← hek]
    exact lbTable_in_graphdef e he
  · intro pre hpre k hpk
    by_contra hk
    obtain ⟨e, he, hek⟩ := hkeys k hk
    have hhead := head_of_tg_prefix pre k hpre hpk
    have hall : ∀ e ∈ lbTable, e.1.data.head? ≠ some 'a' := by decide
    rw [← hek] at hhead
    exact hall e he hhead

/-- C6, witness: the load balancer `app/my-lb/abc123` with the `-tgname` option
left empty and a collaborator that would answer every request with a point:
`ProcessedBytes` is stored and no key of the empty target group name is. -/
theorem Do_only_lb_keys_witness :
    (DoPlugin { lbname := "app/my-lb/abc123" } none).Tgnames = [""] ∧
    ∃ r, FetchMetrics (cwPoints [(60, 7)]) (DoPlugin { lbname := "app/my-lb/abc123" } none) ()
        = Run.done r ∧
      Do (awsWith []) (cwPoints [(60, 7)]) { lbname := "app/my-lb/abc123" } none ()
        = Run.done r ∧
      r.1.2 = none ∧
      (∀ k, r.1.1 k ≠ none →
        ∃ Gg ∈ graphdef, '#' ∉ Gg.1.data ∧ ∃ met ∈ Gg.2.Metrics, met.Name = k) ∧
      (∀ pre ∈ ["alb.host_count.", "alb.httpcode_count_per_group.",
          "alb.request_per_group.", "alb.response_per_group."],
        ∀ k : String, pre.data <+: k.data → r.1.1 k = none) :=
  Do_only_lb_keys (awsWith []) (cwPoints [(60, 7)]) { lbname := "app/my-lb/abc123" } none ()
    (DoPlugin { lbname := "app/my-lb/abc123" } none) none rfl (fun _ => rfl) (by decide)
    (fun c hc => Call.wellFormed_of_complete c
      ((by decide : ∀ c ∈ fetchCalls (cwPoints [(60, 7)])
        (DoPlugin { lbname := "app/my-lb/abc123" } none) (), c.complete = true) c hc))


/-- A plugin with two distinct target group names of the same name segment. -/
def albSameSegment : ALBPlugin := albMyLb ["targetgroup/a/1", "targetgroup/a/2"]

/-- A telemetry service that answers with the value 1 for the target group
`targetgroup/a/1` and with the value 2 for every other dimension set. -/
def cwByGroup : CloudWatch Unit :=
  { Now := fun _ => 0
    Send := fun w input =>
      if (⟨"TargetGroup", "targetgroup/a/1"⟩ : Dimension) ∈ input.Dimensions
      then (Except.ok ⟨[⟨some 60, some 1, some 1⟩]⟩, w)
      else (Except.ok ⟨[⟨some 60, some 2, some 2⟩]⟩, w) }

/-- C7 (as stated, refuted): the sub-resource names `targetgroup/a/1` and
`targetgroup/a/2` are distinct, and the `HealthyHostCount` queries of the two
target groups write to the same key `alb.host_count.a.HealthyHostCount`; the
map keeps the value of the second only. -/
theorem fetchQueries_key_collision :
    albSameSegment.Tgnames.Nodup ∧
    (⟨td albSameSegment "targetgroup/a/1", "HealthyHostCount", statType.stAve,
        "alb.host_count.a.HealthyHostCount"⟩ : Query) ∈ fetchQueries albSameSegment ∧
    (⟨td albSameSegment "targetgroup/a/2", "HealthyHostCount", statType.stAve,
        "alb.host_count.a.HealthyHostCount"⟩ : Query) ∈ fetchQueries albSameSegment ∧
    td albSameSegment "targetgroup/a/1" ≠ td albSameSegment "targetgroup/a/2" ∧
    ∃ r, FetchMetrics cwByGroup albSameSegment () = Run.done r ∧
      r.1.1 "alb.host_count.a.HealthyHostCount" = some 2 :=
  ⟨by decide, by decide, by decide, by decide, _, rfl, by decide⟩

/-- C7 (amended): for every load-balancer name and every list `Tgnames` of
sub-resource names whose short names are pairwise distinct, two different
queries of `FetchMetrics` (each a resource context, load-balancer-level or a
`Tgnames` entry, with a metric name) never write to the same key, and every
key present in the map returned by `FetchMetrics` is the key of exactly one
query. -/
theorem FetchMetrics_key_unique (p : ALBPlugin)
    (hshort : ∀ t1 ∈ p.Tgnames, ∀ t2 ∈ p.Tgnames, tgMetricName t1 = tgMetricName t2 → t1 = t2) :
    (∀ q1 ∈ fetchQueries p, ∀ q2 ∈ fetchQueries p, q1 ≠ q2 → q1.key ≠ q2.key) ∧
      ∀ {σ : Type} (cw : CloudWatch σ) (w : σ) (r : (Stat × Option Error) × σ) (k : String),
        FetchMetrics cw p w = Run.done r → r.1.1 k ≠ none →
        ∃ q ∈ fetchQueries p, q.key = k ∧ ∀ q2 ∈ fetchQueries p, q2.key = k → q2 = q := by
  have hinj : ∀ q1 ∈ fetchQueries p, ∀ q2 ∈ fetchQueries p, q1.key = q2.key → q1 = q2 :=
    fun q1 hq1 q2 hq2 hkey => fetchQueries_key_eq p hshort q1 q2 hq1 hq2 hkey
  refine ⟨fun q1 hq1 q2 hq2 hne hkey => hne (hinj q1 hq1 q2 hq2 hkey), ?_⟩
  intro σ cw w r k hr hk
  obtain ⟨_, hstat, _, _⟩ := FetchMetrics_done cw p w r hr
  rw [hstat] at hk
  obtain ⟨c, hc, hck, _⟩ := storeCalls_origin k _ hk
  have hq := fetchCalls_query_mem cw p w c hc
  exact ⟨c.query, hq, hck, fun q2 hq2 hq2k => hinj q2 hq2 c.query hq (hq2k.trans hck.symm)⟩

/-- C7, witness: two target groups of different name segments. -/
theorem FetchMetrics_key_unique_witness :
    (∀ q1 ∈ fetchQueries (albMyLb ["targetgroup/a/1", "targetgroup/b/2"]),
      ∀ q2 ∈ fetchQueries (albMyLb ["targetgroup/a/1", "targetgroup/b/2"]),
        q1 ≠ q2 → q1.key ≠ q2.key) ∧
      ∀ {σ : Type} (cw : CloudWatch σ) (w : σ) (r : (Stat × Option Error) × σ) (k : String),
        FetchMetrics cw (albMyLb ["targetgroup/a/1", "targetgroup/b/2"]) w = Run.done r →
        r.1.1 k ≠ none →
        ∃ q ∈ fetchQueries (albMyLb ["targetgroup/a/1", "targetgroup/b/2"]),
          q.key = k ∧
            ∀ q2 ∈ fetchQueries (albMyLb ["targetgroup/a/1", "targetgroup/b/2"]),
              q2.key = k → q2 = q :=
  FetchMetrics_key_unique (albMyLb ["targetgroup/a/1", "targetgroup/b/2"]) (by decide)

/-- C5 (the code at the failing input): with one discovered target group,
`prepare` stores a list of two names whose entry at position 0 is the empty
string. -/
theorem prepare_leading_empty_entry :
    ∃ p2, prepare
        (awsWith ["arn:aws:elasticloadbalancing:region:account:targetgroup/my-tg/def456"])
        (albMyLb []) = Run.done (p2, none) ∧
      p2.Tgnames.get? 0 = some "" ∧ p2.Tgnames.length = 2 ∧
      p2.Tgnames = ["", "targetgroup/my-tg/def456"] :=
  ⟨{ albMyLb [] with Tgnames := ["", "targetgroup/my-tg/def456"] }, by decide, by decide,
    by decide, by decide⟩

/-- C8 (the code at the failing input): for a target group identifier of the
`aws-cn` partition, which the pattern `arn:aws:elasticloadbalancing:.+:(.+)`
does not match, `prepare` does not return: the capture-group access is an
index out of range. -/
theorem prepare_panics_on_unmatched_arn :
    FindStringSubmatch (MustCompile "arn:aws:elasticloadbalancing:.+:(.+)")
      "arn:aws-cn:elasticloadbalancing:cn-north-1:123456789012:targetgroup/my-tg/def456" = [] ∧
    prepare
      (awsWith ["arn:aws-cn:elasticloadbalancing:cn-north-1:123456789012:targetgroup/my-tg/def456"])
      (albMyLb []) = Run.panic "runtime error: index out of range" := by
  decide

end mpawsalb
